import Mathlib

/-!
Verification of the fennec image-compression engine (Go) against its
specification.  The Go sources are shallowly embedded: 8-bit RGBA pixel
buffers become a structure holding width, height, stride and a byte list;
float64 arithmetic is modelled by the real numbers (exact comparisons and
rational literals), except in search loops and candidate records, where
every float is only ever compared (never combined with transcendentals)
and the exact rationals model the comparisons faithfully; the JPEG / PNG
codecs of the Go standard library are oracle parameters.  Go loops become
structural recursion (with an explicit fuel argument where the Go loop is
bounded by an arithmetic measure; the fuel chosen strictly dominates the
measure, so the out-of-fuel branch is unreachable on the actual calls).
-/

namespace Fennec

open scoped Classical

/-! ### Pixel buffers

Model of Go `image.NRGBA`: width, height, row stride and the `Pix` byte
slice.  `Pixel (x,y)` occupies bytes `stride*y + 4*x ..+4`.  Reading out
of range yields 0 (Go slices of the sizes used here are zero-initialised).
-/

structure NRGBA where
  w : ℕ
  h : ℕ
  stride : ℕ
  pix : List ℕ
  deriving DecidableEq, Repr

/-- Byte `i` of the pixel data (0 when out of range). -/
def pixGet (img : NRGBA) (i : ℕ) : ℕ :=
  img.pix.getD i 0

/-- Channel `c` of pixel `(x, y)` using the buffer's stride. -/
def pixAt (img : NRGBA) (x y c : ℕ) : ℕ :=
  pixGet img (y * img.stride + 4 * x + c)

/-! ### Formats, quality presets, options (fennec.go v2 / types file) -/

inductive Format where
  | Auto : Format
  | JPEG : Format
  | PNG : Format
  deriving DecidableEq, Repr

/-- Go `type Quality int`; constants are iota values in declaration
order `Balanced, Lossless, Ultra, High, Aggressive, Maximum`. -/
abbrev Quality := ℤ

def Balanced : Quality := 0
def Lossless : Quality := 1
def Ultra : Quality := 2
def High : Quality := 3
def Aggressive : Quality := 4
def Maximum : Quality := 5

/-- `func (q Quality) targetSSIM() float64` — the preset → SSIM-target
table (Go switch, default 0.94). -/
def targetSSIM (q : Quality) : ℚ :=
  if q = Lossless then 1.0
  else if q = Ultra then 0.99
  else if q = High then 0.97
  else if q = Balanced then 0.94
  else if q = Aggressive then 0.90
  else if q = Maximum then 0.85
  else 0.94

/-- Go `Options` (progress callback omitted: glue, out of core scope). -/
structure Options where
  quality : Quality
  format : Format
  maxWidth : ℤ
  maxHeight : ℤ
  subsample : Bool
  targetSSIMOverride : ℚ
  targetSize : ℤ
  autoOrient : Bool

/-- `func DefaultOptions() Options` — unset Go fields are zero values. -/
def DefaultOptions : Options :=
  { quality := Balanced
    format := Format.Auto
    maxWidth := 0
    maxHeight := 0
    subsample := true
    targetSSIMOverride := 0
    targetSize := 0
    autoOrient := true }

/-! ### Target-size candidates and the comparator (targetsize.go) -/

/-- Go `sizeResult`: the output of one target-size strategy. -/
structure sizeResult where
  data : List ℕ
  format : Format
  quality : ℤ
  ssim : ℚ
  finalW : ℕ
  finalH : ℕ
  img : NRGBA
  deriving DecidableEq, Repr

/-- `const minJPEGQuality = 20`. -/
def minJPEGQuality : ℤ := 20

/-- `func betterFit(candidate, current *sizeResult, target int) bool`:
under-target beats over-target, then higher SSIM, then higher JPEG
quality; among over-target candidates smaller size wins. -/
def betterFit (candidate current : sizeResult) (target : ℤ) : Bool :=
  let cSize : ℤ := candidate.data.length
  let bSize : ℤ := current.data.length
  let cUnder := decide (cSize ≤ target)
  let bUnder := decide (bSize ≤ target)
  if cUnder && !bUnder then true
  else if !cUnder && bUnder then false
  else if cUnder && bUnder then
    (if candidate.ssim ≠ current.ssim then decide (candidate.ssim > current.ssim)
     else decide (candidate.quality > current.quality))
  else decide (cSize < bSize)

/-- The candidate-selection loop of `hitTargetSize` (targetsize.go lines
121-126): `best` starts nil and is replaced whenever
`best == nil || betterFit(c, best, targetBytes)`. -/
def pickBest (candidates : List sizeResult) (target : ℤ) : Option sizeResult :=
  candidates.foldl
    (fun best c =>
      match best with
      | none => some c
      | some b => if betterFit c b target then some c else some b)
    none

/-- Ranking key underlying `betterFit`: under-target candidates (first
component 1) beat over-target ones (0); under-target candidates compare
lexicographically by (SSIM, JPEG quality); over-target ones by negated
size.  Used only to organise the proof. -/
def fkey (r : sizeResult) (target : ℤ) : ℚ ×ₗ (ℚ ×ₗ ℚ) :=
  if (r.data.length : ℤ) ≤ target then
    toLex ((1 : ℚ), toLex (r.ssim, (r.quality : ℚ)))
  else
    toLex ((0 : ℚ), toLex (-(r.data.length : ℚ), (0 : ℚ)))

/-! ### JPEG SSIM-optimizer (`compressJPEGOptimal`, compress file v2)

The Go function binary-searches JPEG quality, encoding with
`encodeJPEG`, decoding with `jpeg.Decode`, and measuring `SSIMFast`
against the fixed source.  Codec calls are oracle parameters here:
`enc q` is the encoder output at quality `q` for the fixed source and
options (`none` = encoder error), `dec` the decoder (`none` = decoder
error) and `ssimWith d` is `SSIMFast(src, d)`.  The model additionally
records a ghost trace `probes` of every `(quality, bytes, ssim)` probe,
and reports the bytes written to the output writer plus whether the
fallback re-encode ran.  All loop integers are nonnegative, so Lean's
integer division agrees with Go's. -/

structure cjoOut where
  quality : ℤ
  ssim : ℚ
  cached : Option (List ℕ)
  written : List ℕ
  reencoded : Bool
  probes : List (ℤ × List ℕ × ℚ)
  deriving DecidableEq, Repr

/-- The `for lo <= hi` loop of `compressJPEGOptimal` plus its epilogue
(write cached bytes, else fall back to re-encoding at `bestQuality`).
`fuel` strictly dominates `hi + 1 - lo`, so the 0-fuel branch is
unreachable from `compressJPEGOptimal`. -/
def cjoGo (enc : ℤ → Option (List ℕ)) (dec : List ℕ → Option NRGBA)
    (ssimWith : NRGBA → ℚ) (t : ℚ) (fuel : ℕ) (lo hi bestQ : ℤ) (bestS : ℚ)
    (bestData : Option (List ℕ)) (probes : List (ℤ × List ℕ × ℚ)) :
    Except Unit cjoOut :=
  if _hf : fuel = 0 then .error ()
  else if lo ≤ hi then
    let mid := (lo + hi) / 2
    match enc mid with
    | none => .error ()
    | some buf =>
      match dec buf with
      | none => .error ()
      | some decoded =>
        let s := ssimWith decoded
        if s ≥ t then
          cjoGo enc dec ssimWith t (fuel - 1) lo (mid - 1) mid s (some buf)
            (probes ++ [(mid, buf, s)])
        else
          cjoGo enc dec ssimWith t (fuel - 1) (mid + 1) hi bestQ bestS bestData
            (probes ++ [(mid, buf, s)])
  else
    match bestData with
    | some d => .ok ⟨bestQ, bestS, some d, d, false, probes⟩
    | none =>
      match enc bestQ with
      | none => .error ()
      | some d => .ok ⟨bestQ, bestS, none, d, true, probes⟩
  termination_by fuel
  decreasing_by all_goals omega

/-- `func compressJPEGOptimal(src, w, targetSSIM, opts) (int, float64,
[]byte, error)`: preheated binary search; `bestQuality, bestSSIM` start
as `hi = 100` and `1.0`. -/
def compressJPEGOptimal (enc : ℤ → Option (List ℕ))
    (dec : List ℕ → Option NRGBA) (ssimWith : NRGBA → ℚ) (t : ℚ) :
    Except Unit cjoOut :=
  let lo : ℤ :=
    if t ≥ 0.99 then 75
    else if t ≥ 0.97 then 50
    else if t ≥ 0.94 then 30
    else if t ≥ 0.90 then 15
    else 1
  cjoGo enc dec ssimWith t 101 lo 100 100 1.0 none []

/-- The caller's use of the cached bytes (fennec.go, `case JPEG`): when
`cachedData != nil` the output buffer is reset and the cached bytes are
written verbatim. -/
def finalJPEGData (written : List ℕ) (cached : Option (List ℕ)) : List ℕ :=
  match cached with
  | some d => d
  | none => written

/-- Loop invariant for `cjoGo` (proof scaffolding): bounds on the search
interval, the accumulated probes, and the meaning of
`bestQ / bestS / bestData`. -/
def cjoInv (enc : ℤ → Option (List ℕ)) (t : ℚ) (lo hi bestQ : ℤ) (bestS : ℚ)
    (bestData : Option (List ℕ)) (probes : List (ℤ × List ℕ × ℚ)) : Prop :=
  1 ≤ lo ∧ hi ≤ 100 ∧
  (∀ p ∈ probes, p.1 ≤ 100) ∧
  (bestData = none → bestQ = 100 ∧ bestS = 1 ∧ hi = 100 ∧
    (∀ p ∈ probes, ¬ t ≤ p.2.2) ∧
    (hi < lo → ∃ buf s, (100, buf, s) ∈ probes)) ∧
  (∀ d, bestData = some d → (bestQ, d, bestS) ∈ probes ∧ t ≤ bestS ∧
    enc bestQ = some d ∧ hi < bestQ ∧
    ∀ p ∈ probes, t ≤ p.2.2 → bestQ ≤ p.1)

/-- What `cjoGo` guarantees about an `.ok` outcome (proof scaffolding). -/
def cjoPost (enc : ℤ → Option (List ℕ)) (t : ℚ) (out : cjoOut) : Prop :=
  (out.cached = none → out.quality = 100 ∧ out.ssim = 1 ∧
    out.reencoded = true ∧ enc 100 = some out.written ∧
    (∀ p ∈ out.probes, ¬ t ≤ p.2.2) ∧
    (∃ buf s, (100, buf, s) ∈ out.probes)) ∧
  (∀ d, out.cached = some d → out.written = d ∧ out.reencoded = false ∧
    (out.quality, d, out.ssim) ∈ out.probes ∧ t ≤ out.ssim ∧
    enc out.quality = some d ∧
    ∀ p ∈ out.probes, t ≤ p.2.2 → out.quality ≤ p.1) ∧
  (∀ p ∈ out.probes, p.1 ≤ 100)

/-- Counterexample oracles: a constant encoder, a decoder that always
succeeds, and a measured SSIM that is always 1/2. -/
def cexEnc : ℤ → Option (List ℕ) := fun _ => some [7]

def cexDec : List ℕ → Option NRGBA := fun _ => some ⟨0, 0, 0, []⟩

def cexSsim : NRGBA → ℚ := fun _ => 1/2

/-- Witness oracles: encoder output depends on the quality, measured
SSIM is always 1 (every probe is accepted). -/
def witEnc : ℤ → Option (List ℕ) := fun q => some [q.toNat]

def witSsim : NRGBA → ℚ := fun _ => 1

/-- Outcome of `compressJPEGOptimal` on the counterexample oracles with
target 1: probes 87, 94, 97, 99, 100 all measure 1/2 and fail, so the
sentinel initial values (quality 100, SSIM 1.0) are returned and the
fallback re-encode runs. -/
def cexOut : cjoOut :=
  ⟨100, 1, none, [7], true,
    [(87, [7], 1/2), (94, [7], 1/2), (97, [7], 1/2), (99, [7], 1/2),
     (100, [7], 1/2)]⟩

/-- Outcome of `compressJPEGOptimal` on the witness oracles with target
0.94: every probe is accepted, the search descends to quality 30 and the
cached bytes of the last accepted probe are written. -/
def witOut : cjoOut :=
  ⟨30, 1, some [30], [30], false,
    [(65, [65], 1), (47, [47], 1), (38, [38], 1), (33, [33], 1),
     (31, [31], 1), (30, [30], 1)]⟩

/-! ### Target-size strategies 1 and 3 (targetsize.go)

`jpegQualitySearchOpt` binary-searches the LARGEST quality whose encoded
size fits under the byte target.  As for the optimizer, the codecs are
oracles: `enc q` = `encodeJPEG` of the fixed image at quality `q`
(`none` = error, after which the Go function returns `(nil, err)` and
the caller records no candidate), `dec` = `decodeJPEGFromBytes` (`nil`
on failure, which merely skips the SSIM update), `ssimWith d` =
`computeSSIMNRGBA(src, d)`.  `copyBytes` is the identity on immutable
lists. -/

/-- The `for lo <= hi` loop of `jpegQualitySearchOpt`. -/
def jqsGo (enc : ℤ → Option (List ℕ)) (dec : List ℕ → Option NRGBA)
    (ssimWith : NRGBA → ℚ) (skipSSIM : Bool) (target : ℤ) (fuel : ℕ)
    (lo hi : ℤ) (bestBuf : Option (List ℕ)) (bestQ : ℤ) (bestS : ℚ) :
    Option (List ℕ × ℤ × ℚ) :=
  if _hf : fuel = 0 then none
  else if lo ≤ hi then
    let mid := (lo + hi) / 2
    match enc mid with
    | none => none
    | some buf =>
      if (buf.length : ℤ) ≤ target then
        let bestS2 :=
          if skipSSIM then bestS
          else
            match dec buf with
            | some decoded => ssimWith decoded
            | none => bestS
        jqsGo enc dec ssimWith skipSSIM target (fuel - 1) (mid + 1) hi
          (some buf) mid bestS2
      else
        jqsGo enc dec ssimWith skipSSIM target (fuel - 1) lo (mid - 1)
          bestBuf bestQ bestS
  else
    match bestBuf with
    | none => none
    | some d => some (d, bestQ, bestS)
  termination_by fuel
  decreasing_by all_goals omega

/-- The bits-per-pixel seeding of the search interval (`lo, hi := 1,
100` plus the `targetBPP` ladder).  Go computes `targetBPP :=
float64(targetBytes*8) / float64(pixels)`; when `pixels = 0` the
float64 quotient is `+Inf` / `NaN` / `-Inf` depending on the sign of
`targetBytes`, mirrored here by the three explicit cases. -/
def jqsBounds (w h : ℕ) (target : ℤ) : ℤ × ℤ :=
  let pixels : ℤ := (w * h : ℕ)
  if pixels = 0 then
    (if target > 0 then (60, 100)
     else if target = 0 then (1, 100)
     else (1, 40))
  else
    let bpp : ℚ := ((target * 8 : ℤ) : ℚ) / (pixels : ℚ)
    if bpp < 0.5 then (1, 40)
    else if bpp < 1.0 then (10, 70)
    else if bpp < 2.0 then (30, 90)
    else if bpp > 4.0 then (60, 100)
    else (1, 100)

/-- `func jpegQualitySearchOpt(src, targetBytes, skipSSIM)`: seed the
search interval from the target bits-per-pixel, then run the loop. -/
def jpegQualitySearchOpt (enc : ℤ → Option (List ℕ))
    (dec : List ℕ → Option NRGBA) (ssimWith : NRGBA → ℚ) (src : NRGBA)
    (target : ℤ) (skipSSIM : Bool) : Option sizeResult :=
  match jqsGo enc dec ssimWith skipSSIM target 101
      (jqsBounds src.w src.h target).1 (jqsBounds src.w src.h target).2
      none 0 0 with
  | none => none
  | some (d, q, s) => some ⟨d, Format.JPEG, q, s, src.w, src.h, src⟩

/-- Strategy 1 of `hitTargetSize` (lines 58-66): run
`jpegQualitySearch` (= `jpegQualitySearchOpt` with SSIM) and accept the
candidate only when its quality reaches the `minJPEGQuality` floor. -/
def jpegQualityStrategy (enc : ℤ → Option (List ℕ))
    (dec : List ℕ → Option NRGBA) (ssimWith : NRGBA → ℚ) (src : NRGBA)
    (target : ℤ) : Option sizeResult :=
  match jpegQualitySearchOpt enc dec ssimWith src target false with
  | none => none
  | some r => if r.quality ≥ minJPEGQuality then some r else none

/-- Phase A exploration loop of `jpegQualityScaleSearch` (10 binary
search iterations over the scale factor).  `encI img q` is `encodeJPEG`
of `img` at quality `q`; `box` is `boxDownsample`; `ssimI a b` is
`computeSSIMNRGBA(a, b)`.  `best` records `(scale, quality, size)`.  In
Go both non-accepting reachable cases set `hiScale = midScale` (the
`r.quality < minJPEGQuality` test and the final `else` coincide), so
they are merged. -/
def jqssExplore (encI : NRGBA → ℤ → Option (List ℕ))
    (dec : List ℕ → Option NRGBA) (ssimI : NRGBA → NRGBA → ℚ)
    (box : NRGBA → ℕ → ℕ → NRGBA) (src : NRGBA) (target : ℤ) (n : ℕ)
    (loS hiS : ℚ) (best : Option (ℚ × ℤ × ℕ)) : Option (ℚ × ℤ × ℕ) :=
  if _hn : n = 0 then best
  else
    let midScale := (loS + hiS) / 2
    let newW := (⌊(src.w : ℚ) * midScale⌋).toNat
    let newH := (⌊(src.h : ℚ) * midScale⌋).toNat
    if newW < 8 ∨ newH < 8 then
      jqssExplore encI dec ssimI box src target (n - 1) midScale hiS best
    else
      let scaled := box src newW newH
      match jpegQualitySearchOpt (encI scaled) dec (ssimI scaled) scaled
          target true with
      | none =>
          jqssExplore encI dec ssimI box src target (n - 1) loS midScale best
      | some r =>
          if (r.data.length : ℤ) ≤ target ∧ r.quality ≥ minJPEGQuality then
            jqssExplore encI dec ssimI box src target (n - 1) midScale hiS
              (some (midScale, r.quality, r.data.length))
          else
            jqssExplore encI dec ssimI box src target (n - 1) loS midScale best
  termination_by n
  decreasing_by all_goals omega

/-- The fixed round-scale checks `{0.75, 0.50, 0.375, 0.25}` of
`jpegQualityScaleSearch`. -/
def jqssRound (encI : NRGBA → ℤ → Option (List ℕ))
    (dec : List ℕ → Option NRGBA) (ssimI : NRGBA → NRGBA → ℚ)
    (box : NRGBA → ℕ → ℕ → NRGBA) (src : NRGBA) (target : ℤ)
    (best0 : Option (ℚ × ℤ × ℕ)) : Option (ℚ × ℤ × ℕ) :=
  [(0.75 : ℚ), 0.50, 0.375, 0.25].foldl
    (fun best scale =>
      let newW := (⌊(src.w : ℚ) * scale⌋).toNat
      let newH := (⌊(src.h : ℚ) * scale⌋).toNat
      if newW < 8 ∨ newH < 8 then best
      else
        let scaled := box src newW newH
        match jpegQualitySearchOpt (encI scaled) dec (ssimI scaled) scaled
            target true with
        | none => best
        | some r =>
          if (r.data.length : ℤ) > target then best
          else if r.quality < minJPEGQuality then best
          else
            match best with
            | none => some (scale, r.quality, r.data.length)
            | some b =>
                if scale > b.1 then some (scale, r.quality, r.data.length)
                else some b)
    best0

/-- `func jpegQualityScaleSearch(src, targetBytes)`: Phase A
(exploration over box-downsampled probes, scale interval [0.05, 1.0],
plus the round scales), then Phase B (Lanczos resize at the winning
scale, full quality re-search with SSIM, rejected when the quality floor
or the byte target is missed).  `lanczosO` is the `lanczosResize`
oracle. -/
def jpegQualityScaleSearch (encI : NRGBA → ℤ → Option (List ℕ))
    (dec : List ℕ → Option NRGBA) (ssimI : NRGBA → NRGBA → ℚ)
    (box lanczosO : NRGBA → ℕ → ℕ → NRGBA) (src : NRGBA) (target : ℤ) :
    Option sizeResult :=
  let bestCand :=
    jqssRound encI dec ssimI box src target
      (jqssExplore encI dec ssimI box src target 10 0.05 1.0 none)
  match bestCand with
  | none => none
  | some bc =>
    let finalW := (⌊(src.w : ℚ) * bc.1⌋).toNat
    let finalH := (⌊(src.h : ℚ) * bc.1⌋).toNat
    let finalScaled := lanczosO src finalW finalH
    match jpegQualitySearchOpt (encI finalScaled) dec (ssimI finalScaled)
        finalScaled target false with
    | none => none
    | some r =>
      if r.quality < minJPEGQuality then none
      else
        some { r with
                ssim := ssimI src finalScaled
                finalW := finalW
                finalH := finalH
                img := finalScaled }

/-- Witness oracles for the strategy models: the encoder succeeds (with
a 3-byte output) only on 12-pixel-wide images. -/
def wEncI : NRGBA → ℤ → Option (List ℕ) :=
  fun img _ => if img.w = 12 then some [1, 2, 3] else none

def wBox : NRGBA → ℕ → ℕ → NRGBA := fun _ w h => ⟨w, h, 4 * w, []⟩

def wSsimI : NRGBA → NRGBA → ℚ := fun _ _ => 1

def wSrc : NRGBA := ⟨16, 16, 64, []⟩

/-- The candidate produced by the strategy models on the witness
oracles. -/
def wFinal : sizeResult :=
  ⟨[1, 2, 3], Format.JPEG, 70, 1, 12, 12, ⟨12, 12, 48, []⟩⟩

/-! ### Cancellation-aware target-size engine (modelled from the spec)

`fennec.go` (line 139) calls `hitTargetSize(ctx, src, targetBytes,
opts)`, but the only `hitTargetSize` among the sources is the ctx-less
snapshot of targetsize.go (lines 46-129).  The ctx-aware body is
therefore modelled from the spec (cancellation section): the token is
tested at each strategy boundary and at each exploration-loop
iteration; when tripped, the computation returns a cancellation error
and any partial buffer is discarded.  `ctx k` reports whether the
token has tripped at the k-th test; strategies 2 and 4 and the
no-candidate fallback, whose bodies the claims do not touch, are
oracles. -/

/-- Modelled from the spec: the Phase A exploration loop with a
cancellation test at the start of each of its `n` iterations (token
positions `k, k+1, ...`); the loop body is `jqssExplore`'s. -/
def jqssExploreCtx (ctx : ℕ → Bool) (encI : NRGBA → ℤ → Option (List ℕ))
    (dec : List ℕ → Option NRGBA) (ssimI : NRGBA → NRGBA → ℚ)
    (box : NRGBA → ℕ → ℕ → NRGBA) (src : NRGBA) (target : ℤ) (k n : ℕ)
    (loS hiS : ℚ) (best : Option (ℚ × ℤ × ℕ)) :
    Except Unit (Option (ℚ × ℤ × ℕ)) :=
  if _hn : n = 0 then .ok best
  else if ctx k then .error ()
  else
    let midScale := (loS + hiS) / 2
    let newW := (⌊(src.w : ℚ) * midScale⌋).toNat
    let newH := (⌊(src.h : ℚ) * midScale⌋).toNat
    if newW < 8 ∨ newH < 8 then
      jqssExploreCtx ctx encI dec ssimI box src target (k + 1) (n - 1)
        midScale hiS best
    else
      let scaled := box src newW newH
      match jpegQualitySearchOpt (encI scaled) dec (ssimI scaled) scaled
          target true with
      | none =>
          jqssExploreCtx ctx encI dec ssimI box src target (k + 1) (n - 1)
            loS midScale best
      | some r =>
          if (r.data.length : ℤ) ≤ target ∧ r.quality ≥ minJPEGQuality then
            jqssExploreCtx ctx encI dec ssimI box src target (k + 1) (n - 1)
              midScale hiS (some (midScale, r.quality, r.data.length))
          else
            jqssExploreCtx ctx encI dec ssimI box src target (k + 1) (n - 1)
              loS midScale best
  termination_by n
  decreasing_by all_goals omega

/-- Phase B of `jpegQualityScaleSearch` factored out: Lanczos resize at
the winning scale and the final quality re-search. -/
def jqssPhaseB (encI : NRGBA → ℤ → Option (List ℕ))
    (dec : List ℕ → Option NRGBA) (ssimI : NRGBA → NRGBA → ℚ)
    (lanczosO : NRGBA → ℕ → ℕ → NRGBA) (src : NRGBA) (target : ℤ)
    (bestCand : Option (ℚ × ℤ × ℕ)) : Option sizeResult :=
  match bestCand with
  | none => none
  | some bc =>
    let finalW := (⌊(src.w : ℚ) * bc.1⌋).toNat
    let finalH := (⌊(src.h : ℚ) * bc.1⌋).toNat
    let finalScaled := lanczosO src finalW finalH
    match jpegQualitySearchOpt (encI finalScaled) dec (ssimI finalScaled)
        finalScaled target false with
    | none => none
    | some r =>
      if r.quality < minJPEGQuality then none
      else
        some { r with
                ssim := ssimI src finalScaled
                finalW := finalW
                finalH := finalH
                img := finalScaled }

/-- The common tail of `hitTargetSize` (targetsize.go lines 86-129):
strategy 4 only when no candidate was collected, the fallback when
still empty, otherwise the `betterFit` selection fold. -/
def htsFinish (strat4 : Option sizeResult) (fallback : sizeResult)
    (cs : List sizeResult) (target : ℤ) : Option sizeResult :=
  let cs2 := if cs.isEmpty then strat4.toList else cs
  if cs2.isEmpty then some fallback else pickBest cs2 target

/-- Modelled from the spec: the ctx-aware `hitTargetSize` of v2.  Token
positions: 0 before strategy 1, 1 before strategy 2, 2 before strategy
3, 3..12 at the ten exploration iterations, 13 before strategy 4.
`canJPEG` is `canUseJPEG || wantJPEG`, `tryQuant` is `!wantJPEG`. -/
def hitTargetSizeCtx (ctx : ℕ → Bool) (encI : NRGBA → ℤ → Option (List ℕ))
    (dec : List ℕ → Option NRGBA) (ssimI : NRGBA → NRGBA → ℚ)
    (box lanczosO : NRGBA → ℕ → ℕ → NRGBA) (strat2 strat4 : Option sizeResult)
    (fallback : sizeResult) (src : NRGBA) (target : ℤ)
    (canJPEG tryQuant : Bool) : Except Unit (Option sizeResult) :=
  if ctx 0 then .error ()
  else
    let c1 := if canJPEG then
        (jpegQualityStrategy (encI src) dec (ssimI src) src target).toList
      else []
    if ctx 1 then .error ()
    else
      let c2 := c1 ++ (if tryQuant then strat2.toList else [])
      if ctx 2 then .error ()
      else if canJPEG then
        match jqssExploreCtx ctx encI dec ssimI box src target 3 10
            0.05 1.0 none with
        | .error _ => .error ()
        | .ok ex =>
          let c3 := c2 ++ (jqssPhaseB encI dec ssimI lanczosO src target
            (jqssRound encI dec ssimI box src target ex)).toList
          if ctx 13 then .error ()
          else .ok (htsFinish strat4 fallback c3 target)
      else
        if ctx 3 then .error ()
        else .ok (htsFinish strat4 fallback c2 target)

/-- The ctx-less engine (`hitTargetSize` of the targetsize.go snapshot,
lines 46-129): collect the strategy candidates in order, then the
common tail. -/
def hitTargetSizeNoCancel (encI : NRGBA → ℤ → Option (List ℕ))
    (dec : List ℕ → Option NRGBA) (ssimI : NRGBA → NRGBA → ℚ)
    (box lanczosO : NRGBA → ℕ → ℕ → NRGBA) (strat2 strat4 : Option sizeResult)
    (fallback : sizeResult) (src : NRGBA) (target : ℤ)
    (canJPEG tryQuant : Bool) : Option sizeResult :=
  let c1 := if canJPEG then
      (jpegQualityStrategy (encI src) dec (ssimI src) src target).toList
    else []
  let c2 := c1 ++ (if tryQuant then strat2.toList else [])
  let c3 := c2 ++ (if canJPEG then
      (jpegQualityScaleSearch encI dec ssimI box lanczosO src target).toList
    else [])
  htsFinish strat4 fallback c3 target

/-- Untripped token for the cancellation witness. -/
def wCtx : ℕ → Bool := fun _ => false

/-! ### Lanczos-3 resampler (resize file, current revision with the
`a > 0.5` alpha guard)

float64 arithmetic is modelled by ℝ.  `math.Round` rounds half away
from zero.  The two passes write every destination pixel of a
zero-initialised buffer; the model builds the same row-major pixel
array directly (construction order is irrelevant: each position is
written at most once). -/

/-- `math.Round`: round half away from zero. -/
noncomputable def goRound (x : ℝ) : ℤ :=
  if x < 0 then -⌊-x + 1/2⌋ else ⌊x + 1/2⌋

/-- `func clampF(x float64) uint8`. -/
noncomputable def clampF (x : ℝ) : ℕ :=
  let v := goRound x
  if v > 255 then 255
  else if v < 0 then 0
  else v.toNat

/-- `const lanczosA = 3.0`. -/
noncomputable def lanczosA : ℝ := 3.0

/-- `func lanczosKernel(x float64) float64`. -/
noncomputable def lanczosKernel (x : ℝ) : ℝ :=
  if x = 0 then 1.0
  else
    let x := |x|
    if x ≥ lanczosA then 0.0
    else
      (lanczosA * Real.sin (x * Real.pi) * Real.sin (x * Real.pi / lanczosA)) /
        ((x * Real.pi) * (x * Real.pi))

/-- `func precomputeWeights(dstSize, srcSize int, ratio, support
float64) [][]weightEntry`, as a function from the destination index to
its entry list.  `left`/`right` are ints clamped to `[0, srcSize-1]`;
zero kernel weights are dropped; weights are normalised when their sum
is nonzero. -/
noncomputable def precomputeWeights (_dstSize srcSize : ℕ) (rr support : ℝ)
    (d : ℕ) : List (ℕ × ℝ) :=
  let center : ℝ := ((d : ℝ) + 0.5) * rr - 0.5
  let left : ℤ := max ⌈center - support⌉ 0
  let right : ℤ := min ⌊center + support⌋ ((srcSize : ℤ) - 1)
  let filterScale := max rr 1.0
  let raw : List (ℕ × ℝ) :=
    ((List.range (right - left + 1).toNat).map (fun k => left + (k : ℤ))).filterMap
      (fun (si : ℤ) =>
        let wv := lanczosKernel (((si : ℝ) - center) / filterScale)
        if wv ≠ 0 then some (si.toNat, wv) else none)
  let wsum := (raw.map (fun e => e.2)).sum
  if wsum ≠ 0 then raw.map (fun e => (e.1, e.2 / wsum)) else raw

/-- Per-destination-pixel accumulation of the horizontal pass
(alpha-premultiplied weighted sums of R, G, B and the alpha-weight
sum). -/
noncomputable def hAccum (src : NRGBA) (entries : List (ℕ × ℝ)) (y : ℕ) :
    ℝ × ℝ × ℝ × ℝ :=
  entries.foldl
    (fun acc we =>
      let off := y * src.stride + we.1 * 4
      let sa : ℝ := pixGet src (off + 3)
      let aw := sa * we.2
      (acc.1 + pixGet src off * aw, acc.2.1 + pixGet src (off + 1) * aw,
       acc.2.2.1 + pixGet src (off + 2) * aw, acc.2.2.2 + aw))
    (0, 0, 0, 0)

/-- The four bytes written for one destination pixel of the horizontal
pass: renormalised channels when the accumulated alpha-weight exceeds
0.5 (the Phase 1 guard), else the zero-initialised transparent black. -/
noncomputable def hQuad (src : NRGBA) (entries : List (ℕ × ℝ)) (y : ℕ) :
    List ℕ :=
  let acc := hAccum src entries y
  if acc.2.2.2 > 0.5 then
    let inv := 1.0 / acc.2.2.2
    [clampF (acc.1 * inv), clampF (acc.2.1 * inv), clampF (acc.2.2.1 * inv),
     clampF acc.2.2.2]
  else [0, 0, 0, 0]

/-- The weight table of `resizeH` (`ratio := srcW/dstW`, support
`3*ratio` when downsampling). -/
noncomputable def hWeights (src : NRGBA) (dstW : ℕ) : ℕ → List (ℕ × ℝ) :=
  let rr := (src.w : ℝ) / (dstW : ℝ)
  precomputeWeights dstW src.w rr (if rr > 1 then lanczosA * rr else lanczosA)

/-- `func resizeH(src, dstW, dstH)`. -/
noncomputable def resizeH (src : NRGBA) (dstW dstH : ℕ) : NRGBA :=
  ⟨dstW, dstH, 4 * dstW,
    (List.range dstH).flatMap
      (fun y => (List.range dstW).flatMap
        (fun dx => hQuad src (hWeights src dstW dx) y))⟩

/-- Per-destination-pixel accumulation of the vertical pass. -/
noncomputable def vAccum (src : NRGBA) (entries : List (ℕ × ℝ)) (x : ℕ) :
    ℝ × ℝ × ℝ × ℝ :=
  entries.foldl
    (fun acc we =>
      let off := we.1 * src.stride + x * 4
      let sa : ℝ := pixGet src (off + 3)
      let aw := sa * we.2
      (acc.1 + pixGet src off * aw, acc.2.1 + pixGet src (off + 1) * aw,
       acc.2.2.1 + pixGet src (off + 2) * aw, acc.2.2.2 + aw))
    (0, 0, 0, 0)

/-- The four bytes written for one destination pixel of the vertical
pass. -/
noncomputable def vQuad (src : NRGBA) (entries : List (ℕ × ℝ)) (x : ℕ) :
    List ℕ :=
  let acc := vAccum src entries x
  if acc.2.2.2 > 0.5 then
    let inv := 1.0 / acc.2.2.2
    [clampF (acc.1 * inv), clampF (acc.2.1 * inv), clampF (acc.2.2.1 * inv),
     clampF acc.2.2.2]
  else [0, 0, 0, 0]

/-- The weight table of `resizeV` (`ratio := srcH/dstH`). -/
noncomputable def vWeights (src : NRGBA) (dstH : ℕ) : ℕ → List (ℕ × ℝ) :=
  let rr := (src.h : ℝ) / (dstH : ℝ)
  precomputeWeights dstH src.h rr (if rr > 1 then lanczosA * rr else lanczosA)

/-- `func resizeV(src, dstW, dstH)` (Go iterates columns outermost; the
row-major result is identical). -/
noncomputable def resizeV (src : NRGBA) (dstW dstH : ℕ) : NRGBA :=
  ⟨dstW, dstH, 4 * dstW,
    (List.range dstH).flatMap
      (fun dy => (List.range dstW).flatMap
        (fun x => vQuad src (vWeights src dstH dy) x))⟩

/-- `func lanczosResize(img, dstW, dstH)`: guard degenerate sizes,
identity short-circuit via `copy(dst.Pix, img.Pix)` into a freshly
allocated `4*dstW`-stride buffer (Go `copy` transfers
`min(len(dst.Pix), len(img.Pix))` bytes, the rest stays zero), else the
two passes. -/
noncomputable def lanczosResize (img : NRGBA) (dstW dstH : ℕ) : NRGBA :=
  if img.w = 0 ∨ img.h = 0 ∨ dstW = 0 ∨ dstH = 0 then ⟨0, 0, 0, []⟩
  else if img.w = dstW ∧ img.h = dstH then
    ⟨dstW, dstH, 4 * dstW,
      img.pix.take (4 * dstW * dstH) ++
        List.replicate (4 * dstW * dstH - img.pix.length) 0⟩
  else resizeV (resizeH img dstW img.h) dstW dstH

/-! ### SSIM engine (ssim file, part_002 revision: 512px fast cap)

Float64 arithmetic over ℝ.  The row-partitioned parallel accumulation of
`windowedSSIM` sums the same per-window values in a different
association order; over ℝ the total is the single sum over all window
positions `y ∈ [4, h-4), x ∈ [4, w-4)`. -/

noncomputable def ssimK1 : ℝ := 0.01
noncomputable def ssimK2 : ℝ := 0.03
noncomputable def ssimL : ℝ := 255.0
noncomputable def ssimC1 : ℝ := (ssimK1 * ssimL) * (ssimK1 * ssimL)
noncomputable def ssimC2 : ℝ := (ssimK2 * ssimL) * (ssimK2 * ssimL)

/-- BT.601 luminance of the pixel whose bytes start at index `i`. -/
noncomputable def lumOf (img : NRGBA) (i : ℕ) : ℝ :=
  0.299 * pixGet img i + 0.587 * pixGet img (i + 1) + 0.114 * pixGet img (i + 2)

/-- `func toLuminance(img) []float64` (`lum[y*w+x]`). -/
noncomputable def toLuminance (img : NRGBA) : List ℝ :=
  (List.range img.h).flatMap
    (fun y => (List.range img.w).map (fun x => lumOf img (y * img.stride + x * 4)))

/-- Unnormalised Gaussian value at flat kernel position `(wy, wx)`
(Go index `ki = (y+half)*size + (x+half)`, coords `x, y ∈ [-half,
half)`). -/
noncomputable def gaussRaw (size : ℕ) (sigma : ℝ) (wy wx : ℕ) : ℝ :=
  Real.exp (-((((wx : ℝ) - (size / 2 : ℕ)) ^ 2 + ((wy : ℝ) - (size / 2 : ℕ)) ^ 2)) /
    (2 * sigma * sigma))

/-- `func gaussianKernel(size, sigma)`: normalised to sum 1. -/
noncomputable def gaussianKernel (size : ℕ) (sigma : ℝ) (wy wx : ℕ) : ℝ :=
  gaussRaw size sigma wy wx /
    ∑ p ∈ Finset.range size ×ˢ Finset.range size, gaussRaw size sigma p.1 p.2

/-- One 8x8 Gaussian-weighted window of `windowedSSIM`, centred so the
window spans rows `y-4 .. y+3` and columns `x-4 .. x+3` (callers have
`y, x ≥ 4`). -/
noncomputable def windowSSIMAt (lumA lumB : List ℝ) (w y x : ℕ) : ℝ :=
  let K := Finset.range 8 ×ˢ Finset.range 8
  let la := fun (q : ℕ × ℕ) => lumA.getD ((y + q.1 - 4) * w + (x + q.2 - 4)) 0
  let lb := fun (q : ℕ × ℕ) => lumB.getD ((y + q.1 - 4) * w + (x + q.2 - 4)) 0
  let muA := ∑ q ∈ K, la q * gaussianKernel 8 1.5 q.1 q.2
  let muB := ∑ q ∈ K, lb q * gaussianKernel 8 1.5 q.1 q.2
  let sigAA := ∑ q ∈ K, (la q - muA) * (la q - muA) * gaussianKernel 8 1.5 q.1 q.2
  let sigBB := ∑ q ∈ K, (lb q - muB) * (lb q - muB) * gaussianKernel 8 1.5 q.1 q.2
  let sigAB := ∑ q ∈ K, (la q - muA) * (lb q - muB) * gaussianKernel 8 1.5 q.1 q.2
  ((2 * muA * muB + ssimC1) * (2 * sigAB + ssimC2)) /
    ((muA * muA + muB * muB + ssimC1) * (sigAA + sigBB + ssimC2))

/-- `func windowedSSIM(lumA, lumB, w, h)`: mean of the per-window values
(1.0 when no window fits). -/
noncomputable def windowedSSIM (lumA lumB : List ℝ) (w h : ℕ) : ℝ :=
  let wins := Finset.range (h - 8) ×ˢ Finset.range (w - 8)
  if wins.card = 0 then 1.0
  else (∑ p ∈ wins, windowSSIMAt lumA lumB w (p.1 + 4) (p.2 + 4)) / wins.card

/-- `func pixelSSIM(a, b)`: global-mean SSIM over the byte array in
steps of 4 (Go iterates `i < len(a.Pix)`, reading both images at the
same offsets). -/
noncomputable def pixelSSIM (a b : NRGBA) : ℝ :=
  let n : ℝ := (a.w * a.h : ℕ)
  if n = 0 then 1.0
  else
    let ks := Finset.range ((a.pix.length + 3) / 4)
    let muA := (∑ k ∈ ks, lumOf a (4 * k)) / n
    let muB := (∑ k ∈ ks, lumOf b (4 * k)) / n
    let sigAA := (∑ k ∈ ks, (lumOf a (4 * k) - muA) * (lumOf a (4 * k) - muA)) / n
    let sigBB := (∑ k ∈ ks, (lumOf b (4 * k) - muB) * (lumOf b (4 * k) - muB)) / n
    let sigAB := (∑ k ∈ ks, (lumOf a (4 * k) - muA) * (lumOf b (4 * k) - muB)) / n
    ((2 * muA * muB + ssimC1) * (2 * sigAB + ssimC2)) /
      ((muA * muA + muB * muB + ssimC1) * (sigAA + sigBB + ssimC2))

/-- One destination pixel of `boxDownsample`: area average over the
clamped source span (zero bytes when the span is empty, as the
destination stays zero-initialised). -/
noncomputable def boxQuad (img : NRGBA) (dstW dstH dy dx : ℕ) : List ℕ :=
  let yr : ℝ := (img.h : ℝ) / (dstH : ℝ)
  let xr : ℝ := (img.w : ℝ) / (dstW : ℝ)
  let sy1 : ℤ := min ⌊((dy : ℝ) + 1) * yr⌋ (img.h : ℤ)
  let sy0p : ℤ := ⌊(dy : ℝ) * yr⌋
  let sy0 : ℤ := max (if sy0p ≥ sy1 then sy1 - 1 else sy0p) 0
  let sx1 : ℤ := min ⌊((dx : ℝ) + 1) * xr⌋ (img.w : ℤ)
  let sx0p : ℤ := ⌊(dx : ℝ) * xr⌋
  let sx0 : ℤ := max (if sx0p ≥ sx1 then sx1 - 1 else sx0p) 0
  let ny := (sy1 - sy0).toNat
  let nx := (sx1 - sx0).toNat
  let count : ℝ := (ny * nx : ℕ)
  if count > 0 then
    let sumc := fun (c : ℕ) =>
      ∑ sy ∈ Finset.range ny, ∑ sx ∈ Finset.range nx,
        (pixGet img ((sy0 + sy).toNat * img.stride + (sx0 + sx).toNat * 4 + c) : ℝ)
    let inv := 1.0 / count
    [clampF (sumc 0 * inv), clampF (sumc 1 * inv), clampF (sumc 2 * inv),
     clampF (sumc 3 * inv)]
  else [0, 0, 0, 0]

/-- `func boxDownsample(img, dstW, dstH)`. -/
noncomputable def boxDownsample (img : NRGBA) (dstW dstH : ℕ) : NRGBA :=
  if img.w = 0 ∨ img.h = 0 ∨ dstW = 0 ∨ dstH = 0 then ⟨0, 0, 0, []⟩
  else
    ⟨dstW, dstH, 4 * dstW,
      (List.range dstH).flatMap
        (fun dy => (List.range dstW).flatMap (fun dx => boxQuad img dstW dstH dy dx))⟩

/-- The tail of `SSIM` / `SSIMFast`: small-image fallback, else the
windowed mean over the luminance projections. -/
noncomputable def ssimCore (a b : NRGBA) (w h : ℕ) : ℝ :=
  if w < 8 ∨ h < 8 then pixelSSIM a b
  else windowedSSIM (toLuminance a) (toLuminance b) w h

/-- `func SSIM(img1, img2)`: `toNRGBARef` is the identity on the
canonical buffers of the model; mismatched dimensions resize the second
image. -/
noncomputable def SSIM (a b : NRGBA) : ℝ :=
  let b2 := if a.w ≠ b.w ∨ a.h ≠ b.h then lanczosResize b a.w a.h else b
  ssimCore a b2 a.w a.h

/-- `func SSIMFast(img1, img2)`: box-downsample both images to fit in a
512px box first (Phase 2 cap). -/
noncomputable def SSIMFast (img1 img2 : NRGBA) : ℝ :=
  if img1.w > 512 ∨ img1.h > 512 then
    let scale : ℝ := (512 : ℝ) / max (img1.w : ℝ) (img1.h : ℝ)
    let newW := max 8 (goRound ((img1.w : ℝ) * scale)).toNat
    let newH := max 8 (goRound ((img1.h : ℝ) * scale)).toNat
    ssimCore (boxDownsample img1 newW newH) (boxDownsample img2 newW newH)
      newW newH
  else ssimCore img1 img2 img1.w img1.h

noncomputable def msWeightList : List ℝ := [0.0448, 0.2856, 0.3001, 0.2363, 0.1333]

/-- The weight-truncation preamble of `MSSSIM` (`for i := 0; i <
levels-1; i++`): when a level cannot be formed, keep the first `i+1`
weights renormalised. -/
noncomputable def msTruncGo (ws : List ℝ) : List ℕ → ℕ → ℕ → List ℝ
  | [], _, _ => ws
  | i :: rest, w, h =>
    if min w h < 8 then
      let kept := ws.take (i + 1)
      kept.map (fun x => x / kept.sum)
    else msTruncGo ws rest (w / 2) (h / 2)

noncomputable def msWeights (w h : ℕ) : List ℝ :=
  msTruncGo msWeightList [0, 1, 2, 3] w h

/-- The per-level loop of `MSSSIM`: accumulate `wt * log(max(ssim,
1e-10))`, halving both images (box downsample) between levels and
stopping early when a half would dip under 8 pixels. -/
noncomputable def msLoop (a b : NRGBA) : List ℝ → ℝ
  | [] => 0
  | wt :: rest =>
    wt * Real.log (max (SSIMFast a b) 1e-10) +
      (match rest with
       | [] => 0
       | _ :: _ =>
         let nw := a.w / 2
         let nh := a.h / 2
         if nw < 8 ∨ nh < 8 then 0
         else msLoop (boxDownsample a nw nh) (boxDownsample b nw nh) rest)

/-- `func MSSSIM(img1, img2)` (the `toNRGBA` copies are identities in
the functional model). -/
noncomputable def MSSSIM (a b : NRGBA) : ℝ :=
  let b2 := if a.w ≠ b.w ∨ a.h ≠ b.h then lanczosResize b a.w a.h else b
  Real.exp (msLoop a b2 (msWeights a.w a.h))

/-! ### Format analysis (analyze.go and the targetsize helpers)

`recommendFormat` consumes the sampled statistics of `Analyze`;
`analyzeFormat` is the standalone resolver the orchestrator applies to
the decoded frame when `opts.Format` is `Auto` (fennec.go line 158).
Only the three statistics `recommendFormat` reads are modelled. -/

/-- The fields of `ImageStats` that drive `recommendFormat`. -/
structure ImageStats where
  hasAlpha : Bool
  uniqueColors : ℕ
  edgeDensity : ℝ

/-- `func sobelLum(img, x, y) float64`. -/
noncomputable def sobelLum (img : NRGBA) (x y : ℕ) : ℝ :=
  let off := y * img.stride + x * 4
  0.299 * pixGet img off + 0.587 * pixGet img (off + 1) +
    0.114 * pixGet img (off + 2)

/-- `func computeEdgeDensity(img) float64`: Sobel magnitude over the
sampled interior grid (`y = 1, 1+stepY, ...` while `y < h-1`), an edge
when the magnitude exceeds 30.  `int(math.Max(1, float64(w)/200))` is
`max 1 (w / 200)` on naturals (exact in float64 at these sizes). -/
noncomputable def computeEdgeDensity (img : NRGBA) : ℝ :=
  if img.w < 3 ∨ img.h < 3 then 0
  else
    let stepX := max 1 (img.w / 200)
    let stepY := max 1 (img.h / 200)
    let ys := Finset.range ((img.h - 2 + stepY - 1) / stepY)
    let xs := Finset.range ((img.w - 2 + stepX - 1) / stepX)
    let isEdge : ℕ × ℕ → Prop := fun p =>
      let y := 1 + p.1 * stepY
      let x := 1 + p.2 * stepX
      let gx := sobelLum img (x + 1) (y - 1) - sobelLum img (x - 1) (y - 1) +
        2 * sobelLum img (x + 1) y - 2 * sobelLum img (x - 1) y +
        sobelLum img (x + 1) (y + 1) - sobelLum img (x - 1) (y + 1)
      let gy := sobelLum img (x - 1) (y + 1) - sobelLum img (x - 1) (y - 1) +
        2 * sobelLum img x (y + 1) - 2 * sobelLum img x (y - 1) +
        sobelLum img (x + 1) (y + 1) - sobelLum img (x + 1) (y - 1)
      Real.sqrt (gx * gx + gy * gy) > 30
    if ys.card * xs.card = 0 then 0
    else ((ys ×ˢ xs).filter isEdge).card / ((ys.card * xs.card : ℕ) : ℝ)

/-- `func recommendFormat(stats ImageStats) Format` (analyze.go lines
214-226): transparency, then a 256-color budget, then the edge-density
rule for screenshots and diagrams. -/
noncomputable def recommendFormat (stats : ImageStats) : Format :=
  if stats.hasAlpha then Format.PNG
  else if stats.uniqueColors ≤ 256 then Format.PNG
  else if stats.edgeDensity > 0.3 ∧ stats.uniqueColors < 1000 then Format.PNG
  else Format.JPEG

/-- The sampling scan of `analyzeFormat` (targetsize helpers): raster
order, every `step`-th pixel, stop once 512 distinct colors are seen.
Returns (hasAlpha, color set); the set is a dedup list of
`r*2^24 + g*2^16 + b*2^8 + a` keys.  The Go visit counter `idx`
advances exactly once per pixel the loops reach, so it equals the
raster index.  `afStep` is one iteration of the loop. -/
def afStep (img : NRGBA) (stp : ℕ) (st : Bool × List ℕ) (p : ℕ) :
    Bool × List ℕ :=
  if 512 ≤ st.2.length then st
  else if p % stp ≠ 0 then st
  else
    let off := (p / img.w) * img.stride + (p % img.w) * 4
    let a := pixGet img (off + 3)
    let key := ((pixGet img off * 256 + pixGet img (off + 1)) * 256 +
      pixGet img (off + 2)) * 256 + a
    ((st.1 || decide (a < 255)), if key ∈ st.2 then st.2 else key :: st.2)

def afScan (img : NRGBA) : Bool × List ℕ :=
  (List.range (img.h * img.w)).foldl
    (afStep img
      (if img.w * img.h > 10000 then max 1 (img.w * img.h / 10000) else 1))
    (false, [])

/-- `func analyzeFormat(img) Format` (targetsize helpers, lines
803-844): PNG when the sample shows transparency or strictly fewer
than 256 distinct colors, else JPEG; no edge-density rule. -/
def analyzeFormat (img : NRGBA) : Format :=
  if (afScan img).1 then Format.PNG
  else if (afScan img).2.length < 256 then Format.PNG
  else Format.JPEG

/-- Counterexample input for the Auto-resolution rules: an opaque 16x16
image whose 256 pixels all carry distinct red values. -/
def cFmtImg : NRGBA :=
  ⟨16, 16, 64, (List.range 256).flatMap (fun i => [i, 0, 0, 255])⟩

/-- Input for the identity-resize stride bug: a 1x2 buffer with stride
8; bytes 4-7 of row 0 are padding (9,9,9,9), the real pixel (0,1) is
(5,6,7,8). -/
def strideImg : NRGBA := ⟨1, 2, 8, [1, 2, 3, 4, 9, 9, 9, 9, 5, 6, 7, 8, 0, 0, 0, 0]⟩

/-- Witness input for the pass characterisation. -/
def passImg : NRGBA := ⟨2, 1, 8, [10, 20, 30, 255, 50, 60, 70, 255]⟩

/-- Concrete candidate list exercising `pickBest` (witness input). -/
def demoCands : List sizeResult :=
  [ { data := List.replicate 8 0, format := Format.JPEG, quality := 30
      ssim := 1/2, finalW := 4, finalH := 4, img := ⟨0, 0, 0, []⟩ }
  , { data := List.replicate 9 0, format := Format.JPEG, quality := 20
      ssim := 3/4, finalW := 4, finalH := 4, img := ⟨0, 0, 0, []⟩ } ]

end Fennec

namespace Fennec

/-- Claim C7.  The quality presets of the current (v2.0.0) types file:
Lossless targets SSIM 1.0, Ultra 0.99, High 0.97, Balanced 0.94,
Aggressive 0.90, Maximum 0.85; Balanced is the zero value and the
default options select it. -/
theorem fennec_quality_presets :
    targetSSIM Lossless = 1 ∧ targetSSIM Ultra = 0.99 ∧
    targetSSIM High = 0.97 ∧ targetSSIM Balanced = 0.94 ∧
    targetSSIM Aggressive = 0.90 ∧ targetSSIM Maximum = 0.85 ∧
    Balanced = (0 : Quality) ∧ DefaultOptions.quality = Balanced := by
  refine ⟨?_, ?_, ?_, ?_, ?_, ?_, rfl, rfl⟩ <;>
    norm_num [targetSSIM, Lossless, Ultra, High, Balanced, Aggressive, Maximum]

theorem betterFit_iff_fkey (c b : sizeResult) (T : ℤ) :
    betterFit c b T = true ↔ fkey b T < fkey c T := by
  by_cases hc : (c.data.length : ℤ) ≤ T <;> by_cases hb : (b.data.length : ℤ) ≤ T
  · by_cases hs : c.ssim = b.ssim
    · simp [betterFit, fkey, hc, hb, hs, Prod.Lex.lt_iff]
    · have hlex : (fkey b T < fkey c T) ↔
          (b.ssim < c.ssim ∨ (b.ssim = c.ssim ∧ (b.quality : ℚ) < (c.quality : ℚ))) := by
        simp [fkey, hc, hb, Prod.Lex.lt_iff]
      rw [hlex]
      have hbf : betterFit c b T = decide (c.ssim > b.ssim) := by
        simp [betterFit, hc, hb, hs]
      rw [hbf]
      constructor
      · intro h
        exact Or.inl (by simpa using h)
      · rintro (h | ⟨h, -⟩)
        · simpa using h
        · exact absurd h.symm hs
  · simp [betterFit, fkey, hc, hb, Prod.Lex.lt_iff]
  · simp [betterFit, fkey, hc, hb, Prod.Lex.lt_iff]
  · simp [betterFit, fkey, hc, hb, Prod.Lex.lt_iff]

theorem pickBest_foldl_max (T : ℤ) :
    ∀ (cs : List sizeResult) (b : sizeResult),
      ∃ b', (cs.foldl
          (fun best c =>
            match best with
            | none => some c
            | some b => if betterFit c b T then some c else some b)
          (some b)) = some b' ∧
        (b' = b ∨ b' ∈ cs) ∧ fkey b T ≤ fkey b' T ∧
        ∀ c ∈ cs, fkey c T ≤ fkey b' T := by
  intro cs
  induction cs with
  | nil =>
      intro b
      exact ⟨b, rfl, Or.inl rfl, le_refl _, by simp⟩
  | cons c rest ih =>
      intro b
      by_cases hcb : betterFit c b T = true
      · obtain ⟨b', hres, hmem, hle, hall⟩ := ih c
        have hbc : fkey b T < fkey c T := (betterFit_iff_fkey c b T).mp hcb
        refine ⟨b', ?_, ?_, le_of_lt (lt_of_lt_of_le hbc hle), ?_⟩
        · simpa [List.foldl_cons, hcb] using hres
        · rcases hmem with h | h
          · exact Or.inr (by simp [h])
          · exact Or.inr (List.mem_cons_of_mem _ h)
        · intro d hd
          rcases List.mem_cons.mp hd with h | h
          · exact h ▸ hle
          · exact hall d h
      · obtain ⟨b', hres, hmem, hle, hall⟩ := ih b
        have hcb' : fkey c T ≤ fkey b T := by
          have := (betterFit_iff_fkey c b T).not.mp (by simp [hcb])
          exact le_of_not_lt this
        refine ⟨b', ?_, ?_, hle, ?_⟩
        · simpa [List.foldl_cons, hcb] using hres
        · rcases hmem with h | h
          · exact Or.inl h
          · exact Or.inr (List.mem_cons_of_mem _ h)
        · intro d hd
          rcases List.mem_cons.mp hd with h | h
          · exact h ▸ le_trans hcb' hle
          · exact hall d h

/-- Claim C1.  `hitTargetSize`'s candidate selection (the `betterFit`
fold): when at least one collected candidate fits under the byte target,
the selected candidate fits and lexicographically maximises
(SSIM, JPEG quality) among the fitting candidates; when none fits, the
selected candidate has minimal encoded size. -/
theorem hitTargetSize_selection (cs : List sizeResult) (T : ℤ) (hne : cs ≠ []) :
    ∃ b, pickBest cs T = some b ∧ b ∈ cs ∧
      ((∃ c ∈ cs, (c.data.length : ℤ) ≤ T) →
        (b.data.length : ℤ) ≤ T ∧
        ∀ c ∈ cs, (c.data.length : ℤ) ≤ T →
          c.ssim < b.ssim ∨ (c.ssim = b.ssim ∧ c.quality ≤ b.quality)) ∧
      ((∀ c ∈ cs, ¬ (c.data.length : ℤ) ≤ T) →
        ∀ c ∈ cs, b.data.length ≤ c.data.length) := by
  match cs, hne with
  | c0 :: rest, _ =>
    obtain ⟨b, hres, hmem, hle0, hall⟩ := pickBest_foldl_max T rest c0
    have hballe : ∀ c ∈ c0 :: rest, fkey c T ≤ fkey b T := by
      intro c hc
      rcases List.mem_cons.mp hc with h | h
      · exact h ▸ hle0
      · exact hall c h
    have hbmem : b ∈ c0 :: rest := by
      rcases hmem with h | h
      · simp [h]
      · exact List.mem_cons_of_mem _ h
    refine ⟨b, ?_, hbmem, ?_, ?_⟩
    · simpa [pickBest, List.foldl_cons] using hres
    · rintro ⟨c, hc, hcT⟩
      have hbT : (b.data.length : ℤ) ≤ T := by
        by_contra hbT
        have := hballe c hc
        simp only [fkey, if_pos hcT, if_neg hbT, Prod.Lex.le_iff, Prod.Lex.lt_iff] at this
        rcases this with h | ⟨h, -⟩ <;> norm_num at h
      refine ⟨hbT, ?_⟩
      intro d hd hdT
      have := hballe d hd
      simp only [fkey, if_pos hdT, if_pos hbT, Prod.Lex.le_iff, Prod.Lex.lt_iff,
        Prod.mk.injEq] at this
      rcases this with h | ⟨-, h⟩
      · norm_num at h
      · rcases h with h | ⟨h1, h2⟩
        · exact Or.inl h
        · exact Or.inr ⟨h1, by exact_mod_cast h2⟩
    · intro hover d hd
      have hbT : ¬ (b.data.length : ℤ) ≤ T := hover b hbmem
      have hdT : ¬ (d.data.length : ℤ) ≤ T := hover d hd
      have := hballe d hd
      simp only [fkey, if_neg hdT, if_neg hbT, Prod.Lex.le_iff, Prod.Lex.lt_iff,
        Prod.mk.injEq] at this
      rcases this with h | ⟨-, h⟩
      · norm_num at h
      · rcases h with h | ⟨h, -⟩
        · have : (b.data.length : ℚ) < (d.data.length : ℚ) := by linarith
          exact le_of_lt (by exact_mod_cast this)
        · have : (b.data.length : ℚ) = (d.data.length : ℚ) := by linarith
          exact le_of_eq (by exact_mod_cast this)

theorem cjoGo_spec (enc : ℤ → Option (List ℕ)) (dec : List ℕ → Option NRGBA)
    (sw : NRGBA → ℚ) (t : ℚ) :
    ∀ (fuel : ℕ) (lo hi bestQ : ℤ) (bestS : ℚ) (bestData : Option (List ℕ))
      (probes : List (ℤ × List ℕ × ℚ)) (out : cjoOut),
      cjoInv enc t lo hi bestQ bestS bestData probes →
      cjoGo enc dec sw t fuel lo hi bestQ bestS bestData probes = .ok out →
      cjoPost enc t out := by
  intro fuel
  induction fuel using Nat.strong_induction_on with
  | _ fuel ih =>
    intro lo hi bestQ bestS bestData probes out hinv hrun
    obtain ⟨hlo1, hhi100, hpb, hnoneC, hsomeC⟩ := hinv
    rw [cjoGo.eq_def] at hrun
    by_cases hf : fuel = 0
    · simp [hf] at hrun
    · rw [dif_neg hf] at hrun
      by_cases hlh : lo ≤ hi
      · rw [if_pos hlh] at hrun
        dsimp only at hrun
        have hmlo : lo ≤ (lo + hi) / 2 := by omega
        have hmhi : (lo + hi) / 2 ≤ hi := by omega
        cases henc : enc ((lo + hi) / 2) with
        | none => rw [henc] at hrun; simp at hrun
        | some buf =>
          rw [henc] at hrun
          dsimp only at hrun
          cases hdec : dec buf with
          | none => rw [hdec] at hrun; simp at hrun
          | some decoded =>
            rw [hdec] at hrun
            dsimp only at hrun
            by_cases hst : sw decoded ≥ t
            · rw [if_pos hst] at hrun
              refine ih (fuel - 1) (by omega) _ _ _ _ _ _ _ ?_ hrun
              refine ⟨hlo1, by omega, ?_, ?_, ?_⟩
              · intro p hp
                rcases List.mem_append.mp hp with h | h
                · exact hpb p h
                · rw [List.mem_singleton] at h
                  subst h
                  dsimp only
                  omega
              · intro h
                exact absurd h (by simp)
              · intro d hd
                simp at hd
                subst hd
                refine ⟨by simp, hst, henc, by omega, ?_⟩
                intro p hp hpt
                rcases List.mem_append.mp hp with h | h
                · cases hbd : bestData with
                  | none =>
                      exact absurd hpt ((hnoneC hbd).2.2.2.1 p h)
                  | some d0 =>
                      have := (hsomeC d0 hbd).2.2.2
                      have h1 : bestQ ≤ p.1 := this.2 p h hpt
                      omega
                · rw [List.mem_singleton] at h
                  subst h
                  dsimp only
                  omega
            · rw [if_neg hst] at hrun
              refine ih (fuel - 1) (by omega) _ _ _ _ _ _ _ ?_ hrun
              refine ⟨by omega, hhi100, ?_, ?_, ?_⟩
              · intro p hp
                rcases List.mem_append.mp hp with h | h
                · exact hpb p h
                · rw [List.mem_singleton] at h
                  subst h
                  dsimp only
                  omega
              · intro hbd
                obtain ⟨hq, hs, hh, hrej, hlast⟩ := hnoneC hbd
                refine ⟨hq, hs, hh, ?_, ?_⟩
                · intro p hp
                  rcases List.mem_append.mp hp with h | h
                  · exact hrej p h
                  · rw [List.mem_singleton] at h
                    subst h
                    exact hst
                · intro hgt
                  have hmid : (lo + hi) / 2 = 100 := by omega
                  exact ⟨buf, sw decoded, by
                    rw [← hmid]
                    simp⟩
              · intro d hd
                obtain ⟨hmem, hts, hencq, hhq, hmin⟩ := hsomeC d hd
                refine ⟨List.mem_append_left _ hmem, hts, hencq, hhq, ?_⟩
                intro p hp hpt
                rcases List.mem_append.mp hp with h | h
                · exact hmin p h hpt
                · rw [List.mem_singleton] at h
                  subst h
                  exact absurd hpt hst
      · rw [if_neg hlh] at hrun
        cases hbd : bestData with
        | some d =>
            rw [hbd] at hrun
            dsimp only at hrun
            simp only [Except.ok.injEq] at hrun
            subst hrun
            obtain ⟨hmem, hts, hencq, hhq, hmin⟩ := hsomeC d hbd
            refine ⟨?_, ?_, hpb⟩
            · intro h
              exact absurd h (by simp)
            · intro d' hd'
              simp at hd'
              subst hd'
              exact ⟨rfl, rfl, hmem, hts, hencq, hmin⟩
        | none =>
            rw [hbd] at hrun
            dsimp only at hrun
            obtain ⟨hq, hs, hh, hrej, hlast⟩ := hnoneC hbd
            cases henc : enc bestQ with
            | none => rw [henc] at hrun; simp at hrun
            | some d =>
                rw [henc] at hrun
                dsimp only at hrun
                simp only [Except.ok.injEq] at hrun
                subst hrun
                refine ⟨?_, ?_, hpb⟩
                · intro _
                  refine ⟨hq, hs, rfl, by rw [← hq]; exact henc, hrej, ?_⟩
                  exact hlast (by omega)
                · intro d' hd'
                  exact absurd hd' (by simp)

theorem compressJPEGOptimal_post (enc : ℤ → Option (List ℕ))
    (dec : List ℕ → Option NRGBA) (sw : NRGBA → ℚ) (t : ℚ) (out : cjoOut)
    (hok : compressJPEGOptimal enc dec sw t = .ok out) :
    cjoPost enc t out := by
  rw [compressJPEGOptimal] at hok
  refine cjoGo_spec enc dec sw t 101 _ 100 100 1.0 none [] out ?_ hok
  refine ⟨?_, le_refl _, by simp, ?_, ?_⟩
  · split_ifs <;> norm_num
  · intro _
    refine ⟨rfl, by norm_num, rfl, by simp, ?_⟩
    intro hgt
    exfalso
    split_ifs at hgt <;> omega
  · intro d hd
    exact absurd hd (by simp)

/-- Claim C2.  When at least one binary-search probe of the JPEG
SSIM-optimizer meets the target, the bytes written to the output are
exactly the cached encoder output of the winning probe (the accepted
probe with the lowest quality); the fallback re-encode does not run, and
the orchestrator's final data is the cached buffer verbatim. -/
theorem compressJPEGOptimal_writes_cached_bytes (enc : ℤ → Option (List ℕ))
    (dec : List ℕ → Option NRGBA) (sw : NRGBA → ℚ) (t : ℚ) (out : cjoOut)
    (hok : compressJPEGOptimal enc dec sw t = .ok out)
    (hmeets : ∃ p ∈ out.probes, t ≤ p.2.2) :
    out.reencoded = false ∧
    out.cached = some out.written ∧
    finalJPEGData out.written out.cached = out.written ∧
    (out.quality, out.written, out.ssim) ∈ out.probes ∧
    enc out.quality = some out.written ∧
    t ≤ out.ssim ∧
    ∀ p ∈ out.probes, t ≤ p.2.2 → out.quality ≤ p.1 := by
  obtain ⟨hnoneP, hsomeP, hbound⟩ := compressJPEGOptimal_post enc dec sw t out hok
  cases hc : out.cached with
  | none =>
      obtain ⟨p, hp, hpt⟩ := hmeets
      exact absurd hpt ((hnoneP hc).2.2.2.2.1 p hp)
  | some d =>
      obtain ⟨hw, hre, hmem, hts, hencq, hmin⟩ := hsomeP d hc
      refine ⟨hre, ?_, ?_, ?_, ?_, hts, hmin⟩
      · rw [hw]
      · simp [finalJPEGData, hw]
      · rw [hw]; exact hmem
      · rw [hw]; exact hencq

set_option maxHeartbeats 1000000 in
/-- Claim C4 (amended).  When no binary-search probe of the JPEG
SSIM-optimizer meets the target, the optimizer returns quality 100 (the
initial upper bound, which is also the highest quality tried: quality
100 is probed and every probe is at most 100) together with the sentinel
SSIM value 1.0 (the initial value, not the best SSIM observed among the
probes), and re-encodes at quality 100 for the output; an encoder error
propagates as an error to the caller. -/
theorem compressJPEGOptimal_no_probe_meets (enc : ℤ → Option (List ℕ))
    (dec : List ℕ → Option NRGBA) (sw : NRGBA → ℚ) (t : ℚ) (out : cjoOut)
    (hok : compressJPEGOptimal enc dec sw t = .ok out)
    (hfail : ∀ p ∈ out.probes, ¬ t ≤ p.2.2) :
    out.quality = 100 ∧ out.ssim = 1 ∧ out.reencoded = true ∧
    enc 100 = some out.written ∧
    (∃ buf s, (100, buf, s) ∈ out.probes) ∧
    (∀ p ∈ out.probes, p.1 ≤ 100) ∧
    (∀ (dec' : List ℕ → Option NRGBA) (sw' : NRGBA → ℚ) (t' : ℚ),
      compressJPEGOptimal (fun _ => none) dec' sw' t' = .error ()) := by
  obtain ⟨hnoneP, hsomeP, hbound⟩ := compressJPEGOptimal_post enc dec sw t out hok
  cases hc : out.cached with
  | some d =>
      obtain ⟨-, -, hmem, hts, -, -⟩ := hsomeP d hc
      exact absurd hts (hfail _ hmem)
  | none =>
      obtain ⟨hq, hs, hre, hencw, -, hex⟩ := hnoneP hc
      refine ⟨hq, hs, hre, hencw, hex, hbound, ?_⟩
      intro dec' sw' t'
      rw [compressJPEGOptimal, cjoGo.eq_def]
      split_ifs <;> simp

set_option maxHeartbeats 2000000 in
/-- Claim C4 counterexample: with a constant encoder, an
always-succeeding decoder and a measured SSIM constantly 1/2, target 1:
no probe meets the target, yet the returned SSIM is the sentinel 1,
which is not the best (indeed the only) SSIM value observed among the
probes, 1/2. -/
theorem compressJPEGOptimal_sentinel_cex :
    compressJPEGOptimal cexEnc cexDec cexSsim 1 = .ok cexOut ∧
    (∀ p ∈ cexOut.probes, ¬ (1 : ℚ) ≤ p.2.2) ∧
    (∀ p ∈ cexOut.probes, p.2.2 = 1/2) ∧
    cexOut.ssim = 1 ∧ (1 : ℚ) ≠ 1/2 := by
  refine ⟨?_, ?_, ?_, rfl, by norm_num⟩
  · rw [compressJPEGOptimal]
    norm_num
    iterate 6
      rw [cjoGo.eq_def]
      norm_num [cexEnc, cexDec, cexSsim]
    rfl
  · intro p hp
    simp [cexOut] at hp
    rcases hp with rfl | rfl | rfl | rfl | rfl <;> norm_num
  · intro p hp
    simp [cexOut] at hp
    rcases hp with rfl | rfl | rfl | rfl | rfl <;> norm_num

set_option maxHeartbeats 2000000 in
theorem compressJPEGOptimal_no_probe_meets_witness :
    (compressJPEGOptimal cexEnc cexDec cexSsim 1 = .ok cexOut) ∧
    (∀ p ∈ cexOut.probes, ¬ (1 : ℚ) ≤ p.2.2) ∧
    (cexOut.quality = 100 ∧ cexOut.ssim = 1 ∧ cexOut.reencoded = true ∧
      cexEnc 100 = some cexOut.written ∧
      (∃ buf s, (100, buf, s) ∈ cexOut.probes) ∧
      (∀ p ∈ cexOut.probes, p.1 ≤ 100) ∧
      (∀ (dec' : List ℕ → Option NRGBA) (sw' : NRGBA → ℚ) (t' : ℚ),
        compressJPEGOptimal (fun _ => none) dec' sw' t' = .error ())) := by
  have h1 : compressJPEGOptimal cexEnc cexDec cexSsim 1 = .ok cexOut := by
    rw [compressJPEGOptimal]
    norm_num
    iterate 6
      rw [cjoGo.eq_def]
      norm_num [cexEnc, cexDec, cexSsim]
    rfl
  have h2 : ∀ p ∈ cexOut.probes, ¬ (1 : ℚ) ≤ p.2.2 := by
    intro p hp
    simp [cexOut] at hp
    rcases hp with rfl | rfl | rfl | rfl | rfl <;> norm_num
  exact ⟨h1, h2,
    compressJPEGOptimal_no_probe_meets cexEnc cexDec cexSsim 1 cexOut h1 h2⟩

set_option maxHeartbeats 2000000 in
theorem compressJPEGOptimal_writes_cached_bytes_witness :
    (compressJPEGOptimal witEnc cexDec witSsim 0.94 = .ok witOut) ∧
    (∃ p ∈ witOut.probes, (0.94 : ℚ) ≤ p.2.2) ∧
    (witOut.reencoded = false ∧
      witOut.cached = some witOut.written ∧
      finalJPEGData witOut.written witOut.cached = witOut.written ∧
      (witOut.quality, witOut.written, witOut.ssim) ∈ witOut.probes ∧
      witEnc witOut.quality = some witOut.written ∧
      (0.94 : ℚ) ≤ witOut.ssim ∧
      ∀ p ∈ witOut.probes, (0.94 : ℚ) ≤ p.2.2 → witOut.quality ≤ p.1) := by
  have h1 : compressJPEGOptimal witEnc cexDec witSsim 0.94 = .ok witOut := by
    rw [compressJPEGOptimal]
    norm_num
    iterate 7
      rw [cjoGo.eq_def]
      norm_num [witEnc, cexDec, witSsim]
    rfl
  have h2 : ∃ p ∈ witOut.probes, (0.94 : ℚ) ≤ p.2.2 :=
    ⟨(65, [65], 1), by simp [witOut], by norm_num⟩
  exact ⟨h1, h2,
    compressJPEGOptimal_writes_cached_bytes witEnc cexDec witSsim 0.94 witOut h1 h2⟩

theorem hitTargetSize_selection_witness :
    demoCands ≠ [] ∧
    (∃ b, pickBest demoCands 10 = some b ∧ b ∈ demoCands ∧
      ((∃ c ∈ demoCands, (c.data.length : ℤ) ≤ 10) →
        (b.data.length : ℤ) ≤ 10 ∧
        ∀ c ∈ demoCands, (c.data.length : ℤ) ≤ 10 →
          c.ssim < b.ssim ∨ (c.ssim = b.ssim ∧ c.quality ≤ b.quality)) ∧
      ((∀ c ∈ demoCands, ¬ (c.data.length : ℤ) ≤ 10) →
        ∀ c ∈ demoCands, b.data.length ≤ c.data.length)) :=
  ⟨by decide, hitTargetSize_selection demoCands 10 (by decide)⟩

theorem jqsGo_size (enc : ℤ → Option (List ℕ)) (dec : List ℕ → Option NRGBA)
    (sw : NRGBA → ℚ) (skip : Bool) (target : ℤ) :
    ∀ (fuel : ℕ) (lo hi : ℤ) (bestBuf : Option (List ℕ)) (bestQ : ℤ)
      (bestS : ℚ) (d : List ℕ) (q : ℤ) (s : ℚ),
      (∀ b, bestBuf = some b → (b.length : ℤ) ≤ target) →
      jqsGo enc dec sw skip target fuel lo hi bestBuf bestQ bestS =
        some (d, q, s) →
      (d.length : ℤ) ≤ target := by
  intro fuel
  induction fuel using Nat.strong_induction_on with
  | _ fuel ih =>
    intro lo hi bestBuf bestQ bestS d q s hbb hrun
    rw [jqsGo.eq_def] at hrun
    by_cases hf : fuel = 0
    · simp [hf] at hrun
    · rw [dif_neg hf] at hrun
      by_cases hlh : lo ≤ hi
      · rw [if_pos hlh] at hrun
        dsimp only at hrun
        cases henc : enc ((lo + hi) / 2) with
        | none => rw [henc] at hrun; simp at hrun
        | some buf =>
          rw [henc] at hrun
          dsimp only at hrun
          by_cases hfit : (buf.length : ℤ) ≤ target
          · rw [if_pos hfit] at hrun
            refine ih (fuel - 1) (by omega) _ _ _ _ _ _ _ _ ?_ hrun
            intro b hb
            rw [Option.some.injEq] at hb
            subst hb
            exact hfit
          · rw [if_neg hfit] at hrun
            exact ih (fuel - 1) (by omega) _ _ _ _ _ _ _ _ hbb hrun
      · rw [if_neg hlh] at hrun
        cases hbb2 : bestBuf with
        | none => rw [hbb2] at hrun; simp at hrun
        | some b =>
            rw [hbb2] at hrun
            simp only [Option.some.injEq, Prod.mk.injEq] at hrun
            rw [← hrun.1]
            exact hbb b hbb2

theorem jpegQualitySearchOpt_size (enc : ℤ → Option (List ℕ))
    (dec : List ℕ → Option NRGBA) (sw : NRGBA → ℚ) (src : NRGBA)
    (target : ℤ) (skip : Bool) (r : sizeResult)
    (h : jpegQualitySearchOpt enc dec sw src target skip = some r) :
    (r.data.length : ℤ) ≤ target := by
  rw [jpegQualitySearchOpt] at h
  cases hgo : jqsGo enc dec sw skip target 101
      (jqsBounds src.w src.h target).1 (jqsBounds src.w src.h target).2
      none 0 0 with
  | none => rw [hgo] at h; simp at h
  | some dqs =>
      rw [hgo] at h
      obtain ⟨d, q, s⟩ := dqs
      simp only [Option.some.injEq] at h
      subst h
      exact jqsGo_size enc dec sw skip target 101 _ _ none 0 0 d q s
        (by intro b hb; simp at hb) hgo

/-- Claim C6.  Every candidate emitted by strategy 1 (the full
resolution JPEG quality search plus its quality-floor filter in
`hitTargetSize`) and every candidate emitted by strategy 3 Phase B (the
final Lanczos rescale plus quality re-search in
`jpegQualityScaleSearch`) has JPEG quality at least 20 and encoded size
at most the byte target; otherwise the strategy yields no candidate. -/
theorem targetsize_strategy_quality_floor (enc : ℤ → Option (List ℕ))
    (dec : List ℕ → Option NRGBA) (sw : NRGBA → ℚ)
    (encI : NRGBA → ℤ → Option (List ℕ)) (ssimI : NRGBA → NRGBA → ℚ)
    (box lanczosO : NRGBA → ℕ → ℕ → NRGBA) (src : NRGBA) (target : ℤ) :
    (∀ r, jpegQualityStrategy enc dec sw src target = some r →
      minJPEGQuality ≤ r.quality ∧ (r.data.length : ℤ) ≤ target) ∧
    (∀ r, jpegQualityScaleSearch encI dec ssimI box lanczosO src target =
        some r →
      minJPEGQuality ≤ r.quality ∧ (r.data.length : ℤ) ≤ target) := by
  constructor
  · intro r h
    rw [jpegQualityStrategy] at h
    cases hopt : jpegQualitySearchOpt enc dec sw src target false with
    | none => rw [hopt] at h; simp at h
    | some r0 =>
        rw [hopt] at h
        dsimp only at h
        by_cases hq : r0.quality ≥ minJPEGQuality
        · rw [if_pos hq] at h
          rw [Option.some.injEq] at h
          subst h
          exact ⟨hq, jpegQualitySearchOpt_size enc dec sw src target false r0 hopt⟩
        · rw [if_neg hq] at h
          simp at h
  · intro r h
    rw [jpegQualityScaleSearch] at h
    cases hbc : jqssRound encI dec ssimI box src target
        (jqssExplore encI dec ssimI box src target 10 0.05 1.0 none) with
    | none => rw [hbc] at h; simp at h
    | some bc =>
        rw [hbc] at h
        dsimp only at h
        cases hopt : jpegQualitySearchOpt
            (encI (lanczosO src (⌊(src.w : ℚ) * bc.1⌋).toNat
              (⌊(src.h : ℚ) * bc.1⌋).toNat)) dec
            (ssimI (lanczosO src (⌊(src.w : ℚ) * bc.1⌋).toNat
              (⌊(src.h : ℚ) * bc.1⌋).toNat))
            (lanczosO src (⌊(src.w : ℚ) * bc.1⌋).toNat
              (⌊(src.h : ℚ) * bc.1⌋).toNat) target false with
        | none => rw [hopt] at h; simp at h
        | some r0 =>
            rw [hopt] at h
            dsimp only at h
            by_cases hq : r0.quality < minJPEGQuality
            · rw [if_pos hq] at h
              simp at h
            · rw [if_neg hq] at h
              rw [Option.some.injEq] at h
              subst h
              refine ⟨?_, ?_⟩ <;> dsimp only
              · omega
              · exact jpegQualitySearchOpt_size _ _ _ _ _ _ r0 hopt


set_option maxHeartbeats 4000000 in
theorem targetsize_strategy_quality_floor_witness :
    (jpegQualityStrategy (wEncI ⟨12, 12, 48, []⟩) cexDec
        (wSsimI ⟨12, 12, 48, []⟩) ⟨12, 12, 48, []⟩ 10 = some wFinal) ∧
    (minJPEGQuality ≤ wFinal.quality ∧ (wFinal.data.length : ℤ) ≤ 10) ∧
    (jpegQualityScaleSearch wEncI cexDec wSsimI wBox wBox wSrc 10 =
        some wFinal) ∧
    (minJPEGQuality ≤ wFinal.quality ∧ (wFinal.data.length : ℤ) ≤ 10) := by
  have h12f : jpegQualitySearchOpt (wEncI ⟨12, 12, 48, []⟩) cexDec
      (wSsimI ⟨12, 12, 48, []⟩) ⟨12, 12, 48, []⟩ 10 false = some wFinal := by
    rw [jpegQualitySearchOpt]
    norm_num [jqsBounds]
    iterate 7
      rw [jqsGo.eq_def]
      norm_num [wEncI, cexDec, wSsimI]
    rfl
  have h12t : jpegQualitySearchOpt (wEncI ⟨12, 12, 48, []⟩) cexDec
      (wSsimI ⟨12, 12, 48, []⟩) ⟨12, 12, 48, []⟩ 10 true =
      some ⟨[1, 2, 3], Format.JPEG, 70, 0, 12, 12, ⟨12, 12, 48, []⟩⟩ := by
    rw [jpegQualitySearchOpt]
    norm_num [jqsBounds]
    iterate 7
      rw [jqsGo.eq_def]
      norm_num [wEncI, cexDec, wSsimI]
  have h8 : jpegQualitySearchOpt (wEncI ⟨8, 8, 32, []⟩) cexDec
      (wSsimI ⟨8, 8, 32, []⟩) ⟨8, 8, 32, []⟩ 10 true = none := by
    rw [jpegQualitySearchOpt]
    norm_num [jqsBounds]
    rw [jqsGo.eq_def]
    norm_num [wEncI]
  have hexp : jqssExplore wEncI cexDec wSsimI wBox wSrc 10 10 0.05 1.0 none =
      none := by
    iterate 10
      rw [jqssExplore.eq_def]
      norm_num [wBox, wSrc, h8]
      try simp only [Int.reduceToNat]
      try norm_num [wBox, wSrc, h8]
    rw [jqssExplore.eq_def]
    norm_num
  have hrnd : jqssRound wEncI cexDec wSsimI wBox wSrc 10 none =
      some ((0.75 : ℚ), 70, 3) := by
    rw [jqssRound]
    norm_num [wBox, wSrc, h8, h12t, minJPEGQuality]
    try simp only [Int.reduceToNat]
    try norm_num [wBox, wSrc, h8, h12t, minJPEGQuality]
  have hmain : jpegQualityScaleSearch wEncI cexDec wSsimI wBox wBox wSrc 10 =
      some wFinal := by
    rw [jpegQualityScaleSearch]
    rw [hexp, hrnd]
    norm_num [wBox, wSrc, h12f, wFinal, minJPEGQuality, wSsimI]
    try simp only [Int.reduceToNat]
    try norm_num [wBox, wSrc, h12f, wFinal, minJPEGQuality, wSsimI]
  have hstrat : jpegQualityStrategy (wEncI ⟨12, 12, 48, []⟩) cexDec
      (wSsimI ⟨12, 12, 48, []⟩) ⟨12, 12, 48, []⟩ 10 = some wFinal := by
    rw [jpegQualityStrategy, h12f]
    norm_num [wFinal, minJPEGQuality]
  exact ⟨hstrat,
    (targetsize_strategy_quality_floor (wEncI ⟨12, 12, 48, []⟩) cexDec
      (wSsimI ⟨12, 12, 48, []⟩) wEncI wSsimI wBox wBox ⟨12, 12, 48, []⟩ 10).1
      wFinal hstrat,
    hmain,
    (targetsize_strategy_quality_floor (wEncI ⟨12, 12, 48, []⟩) cexDec
      (wSsimI ⟨12, 12, 48, []⟩) wEncI wSsimI wBox wBox wSrc 10).2
      wFinal hmain⟩


theorem flatMap_fixed_length (f : ℕ → List ℕ) (k : ℕ)
    (hf : ∀ i, (f i).length = k) :
    ∀ n, ((List.range n).flatMap f).length = n * k := by
  intro n
  induction n with
  | zero => simp
  | succ n ih =>
      rw [List.range_succ]
      simp [ih, hf, Nat.succ_mul]

theorem flatMap_fixed_getD (f : ℕ → List ℕ) (k : ℕ)
    (hf : ∀ i, (f i).length = k) :
    ∀ (n i j : ℕ), i < n → j < k →
      ((List.range n).flatMap f).getD (i * k + j) 0 = (f i).getD j 0 := by
  intro n
  induction n with
  | zero =>
      intro i j hi _
      exact absurd hi (Nat.not_lt_zero i)
  | succ n ih =>
      intro i j hi hj
      have hsplit : (List.range (n + 1)).flatMap f =
          (List.range n).flatMap f ++ f n := by
        rw [List.range_succ]
        simp
      rw [hsplit]
      have hlen : ((List.range n).flatMap f).length = n * k :=
        flatMap_fixed_length f k hf n
      by_cases hin : i < n
      · have hidx : i * k + j < ((List.range n).flatMap f).length := by
          rw [hlen]
          have h1 : i * k + j < i * k + k := Nat.add_lt_add_left hj (i * k)
          have h2 : i * k + k = (i + 1) * k := (Nat.succ_mul i k).symm
          have h3 : (i + 1) * k ≤ n * k := Nat.mul_le_mul_right k hin
          omega
        rw [List.getD_append _ _ _ _ hidx]
        exact ih i j hin hj
      · have hieq : i = n := by omega
        subst hieq
        have hge : ((List.range i).flatMap f).length ≤ i * k + j := by
          rw [hlen]
          exact Nat.le_add_right _ _
        rw [List.getD_append_right _ _ _ _ hge, hlen]
        congr 1
        omega

theorem hQuad_length (src : NRGBA) (es : List (ℕ × ℝ)) (y : ℕ) :
    (hQuad src es y).length = 4 := by
  rw [hQuad]
  by_cases h : (hAccum src es y).2.2.2 > 0.5 <;> simp [h]

theorem vQuad_length (src : NRGBA) (es : List (ℕ × ℝ)) (x : ℕ) :
    (vQuad src es x).length = 4 := by
  rw [vQuad]
  by_cases h : (vAccum src es x).2.2.2 > 0.5 <;> simp [h]

theorem resizeH_pixAt (src : NRGBA) (dW dH dx dy c : ℕ)
    (hx : dx < dW) (hy : dy < dH) (hc : c < 4) :
    pixAt (resizeH src dW dH) dx dy c =
      (hQuad src (hWeights src dW dx) dy).getD c 0 := by
  unfold pixAt pixGet resizeH
  dsimp only
  rw [show dy * (4 * dW) + 4 * dx + c = dy * (dW * 4) + (dx * 4 + c) from by ring]
  rw [flatMap_fixed_getD _ (dW * 4)
    (fun y => flatMap_fixed_length _ 4 (fun i => hQuad_length src (hWeights src dW i) y) dW)
    dH dy (dx * 4 + c) hy (by omega)]
  exact flatMap_fixed_getD _ 4
    (fun i => hQuad_length src (hWeights src dW i) dy) dW dx c hx hc

theorem resizeV_pixAt (src : NRGBA) (dW dH dx dy c : ℕ)
    (hx : dx < dW) (hy : dy < dH) (hc : c < 4) :
    pixAt (resizeV src dW dH) dx dy c =
      (vQuad src (vWeights src dH dy) dx).getD c 0 := by
  unfold pixAt pixGet resizeV
  dsimp only
  rw [show dy * (4 * dW) + 4 * dx + c = dy * (dW * 4) + (dx * 4 + c) from by ring]
  rw [flatMap_fixed_getD _ (dW * 4)
    (fun y => flatMap_fixed_length _ 4 (fun i => vQuad_length src (vWeights src dH y) i) dW)
    dH dy (dx * 4 + c) hy (by omega)]
  exact flatMap_fixed_getD _ 4
    (fun i => vQuad_length src (vWeights src dH dy) i) dW dx c hx hc

/-- Claim C3.  In each pass of the Lanczos-3 resampler (current
revision, with the Phase 1 alpha guard), every destination pixel whose
accumulated alpha-weight sum is at most 0.5 is written as transparent
black, and otherwise carries the alpha-premultiplied weighted channel
accumulations renormalised by that sum, with the clamped sum as
alpha. -/
theorem lanczos_pass_alpha_guard (src : NRGBA) (dW dH dx dy : ℕ)
    (hx : dx < dW) (hy : dy < dH) :
    (((hAccum src (hWeights src dW dx) dy).2.2.2 ≤ 0.5 →
        ∀ c, c < 4 → pixAt (resizeH src dW dH) dx dy c = 0) ∧
      (0.5 < (hAccum src (hWeights src dW dx) dy).2.2.2 →
        pixAt (resizeH src dW dH) dx dy 0 =
          clampF ((hAccum src (hWeights src dW dx) dy).1 *
            (1.0 / (hAccum src (hWeights src dW dx) dy).2.2.2)) ∧
        pixAt (resizeH src dW dH) dx dy 1 =
          clampF ((hAccum src (hWeights src dW dx) dy).2.1 *
            (1.0 / (hAccum src (hWeights src dW dx) dy).2.2.2)) ∧
        pixAt (resizeH src dW dH) dx dy 2 =
          clampF ((hAccum src (hWeights src dW dx) dy).2.2.1 *
            (1.0 / (hAccum src (hWeights src dW dx) dy).2.2.2)) ∧
        pixAt (resizeH src dW dH) dx dy 3 =
          clampF ((hAccum src (hWeights src dW dx) dy).2.2.2))) ∧
    (((vAccum src (vWeights src dH dy) dx).2.2.2 ≤ 0.5 →
        ∀ c, c < 4 → pixAt (resizeV src dW dH) dx dy c = 0) ∧
      (0.5 < (vAccum src (vWeights src dH dy) dx).2.2.2 →
        pixAt (resizeV src dW dH) dx dy 0 =
          clampF ((vAccum src (vWeights src dH dy) dx).1 *
            (1.0 / (vAccum src (vWeights src dH dy) dx).2.2.2)) ∧
        pixAt (resizeV src dW dH) dx dy 1 =
          clampF ((vAccum src (vWeights src dH dy) dx).2.1 *
            (1.0 / (vAccum src (vWeights src dH dy) dx).2.2.2)) ∧
        pixAt (resizeV src dW dH) dx dy 2 =
          clampF ((vAccum src (vWeights src dH dy) dx).2.2.1 *
            (1.0 / (vAccum src (vWeights src dH dy) dx).2.2.2)) ∧
        pixAt (resizeV src dW dH) dx dy 3 =
          clampF ((vAccum src (vWeights src dH dy) dx).2.2.2))) := by
  constructor
  · constructor
    · intro hle c hc
      rw [resizeH_pixAt src dW dH dx dy c hx hy hc, hQuad]
      dsimp only
      rw [if_neg (not_lt.mpr hle)]
      interval_cases c <;> rfl
    · intro hgt
      refine ⟨?_, ?_, ?_, ?_⟩ <;>
        · rw [resizeH_pixAt src dW dH dx dy _ hx hy (by omega), hQuad]
          dsimp only
          rw [if_pos hgt]
          rfl
  · constructor
    · intro hle c hc
      rw [resizeV_pixAt src dW dH dx dy c hx hy hc, vQuad]
      dsimp only
      rw [if_neg (not_lt.mpr hle)]
      interval_cases c <;> rfl
    · intro hgt
      refine ⟨?_, ?_, ?_, ?_⟩ <;>
        · rw [resizeV_pixAt src dW dH dx dy _ hx hy (by omega), vQuad]
          dsimp only
          rw [if_pos hgt]
          rfl

theorem lanczos_pass_alpha_guard_witness :
    ((0 : ℕ) < 1 ∧ (0 : ℕ) < 1) ∧
    ((((hAccum passImg (hWeights passImg 1 0) 0).2.2.2 ≤ 0.5 →
        ∀ c, c < 4 → pixAt (resizeH passImg 1 1) 0 0 c = 0) ∧
      (0.5 < (hAccum passImg (hWeights passImg 1 0) 0).2.2.2 →
        pixAt (resizeH passImg 1 1) 0 0 0 =
          clampF ((hAccum passImg (hWeights passImg 1 0) 0).1 *
            (1.0 / (hAccum passImg (hWeights passImg 1 0) 0).2.2.2)) ∧
        pixAt (resizeH passImg 1 1) 0 0 1 =
          clampF ((hAccum passImg (hWeights passImg 1 0) 0).2.1 *
            (1.0 / (hAccum passImg (hWeights passImg 1 0) 0).2.2.2)) ∧
        pixAt (resizeH passImg 1 1) 0 0 2 =
          clampF ((hAccum passImg (hWeights passImg 1 0) 0).2.2.1 *
            (1.0 / (hAccum passImg (hWeights passImg 1 0) 0).2.2.2)) ∧
        pixAt (resizeH passImg 1 1) 0 0 3 =
          clampF ((hAccum passImg (hWeights passImg 1 0) 0).2.2.2))) ∧
    (((vAccum passImg (vWeights passImg 1 0) 0).2.2.2 ≤ 0.5 →
        ∀ c, c < 4 → pixAt (resizeV passImg 1 1) 0 0 c = 0) ∧
      (0.5 < (vAccum passImg (vWeights passImg 1 0) 0).2.2.2 →
        pixAt (resizeV passImg 1 1) 0 0 0 =
          clampF ((vAccum passImg (vWeights passImg 1 0) 0).1 *
            (1.0 / (vAccum passImg (vWeights passImg 1 0) 0).2.2.2)) ∧
        pixAt (resizeV passImg 1 1) 0 0 1 =
          clampF ((vAccum passImg (vWeights passImg 1 0) 0).2.1 *
            (1.0 / (vAccum passImg (vWeights passImg 1 0) 0).2.2.2)) ∧
        pixAt (resizeV passImg 1 1) 0 0 2 =
          clampF ((vAccum passImg (vWeights passImg 1 0) 0).2.2.1 *
            (1.0 / (vAccum passImg (vWeights passImg 1 0) 0).2.2.2)) ∧
        pixAt (resizeV passImg 1 1) 0 0 3 =
          clampF ((vAccum passImg (vWeights passImg 1 0) 0).2.2.2)))) :=
  ⟨⟨Nat.zero_lt_one, Nat.zero_lt_one⟩,
    lanczos_pass_alpha_guard passImg 1 1 0 0 Nat.zero_lt_one Nat.zero_lt_one⟩

/-- Claim C10 (code bug at larger strides).  The identity short-circuit
of `lanczosResize` copies the first `4*W*H` bytes of `Pix` into a
`4*W`-stride buffer; with stride 8 > 4 the copied bytes include row
padding, so the output pixel (0,1) holds the padding bytes (9,9,9,9)
instead of the source pixel (5,6,7,8).  With stride exactly `4*W` the
copy is byte-identical, as the last conjunct shows. -/
theorem lanczosResize_identity_stride_bug :
    (lanczosResize strideImg 1 2).pix = [1, 2, 3, 4, 9, 9, 9, 9] ∧
    pixAt (lanczosResize strideImg 1 2) 0 1 0 = 9 ∧
    pixAt strideImg 0 1 0 = 5 ∧
    pixAt (lanczosResize strideImg 1 2) 0 1 0 ≠ pixAt strideImg 0 1 0 ∧
    (lanczosResize ⟨1, 2, 4, [1, 2, 3, 4, 5, 6, 7, 8]⟩ 1 2).pix =
      [1, 2, 3, 4, 5, 6, 7, 8] := by
  refine ⟨?_, ?_, ?_, ?_, ?_⟩ <;>
    simp [lanczosResize, strideImg, pixAt, pixGet, List.getD]

/-! ### C9: self-similarity of SSIM and MS-SSIM -/

theorem ssimC1_pos : 0 < ssimC1 := by
  norm_num [ssimC1, ssimK1, ssimL]

theorem ssimC2_pos : 0 < ssimC2 := by
  norm_num [ssimC2, ssimK2, ssimL]

/-- The common SSIM ratio collapses to 1 when both means coincide and
the two variances equal the covariance (the self-comparison shape). -/
theorem ssim_ratio_self (M S : ℝ) (hS : 0 ≤ S) :
    ((2 * M * M + ssimC1) * (2 * S + ssimC2)) /
      ((M * M + M * M + ssimC1) * (S + S + ssimC2)) = 1 := by
  have hC1 := ssimC1_pos
  have hC2 := ssimC2_pos
  have hM : 0 ≤ M * M := mul_self_nonneg M
  have heq : (2 * M * M + ssimC1) * (2 * S + ssimC2)
      = (M * M + M * M + ssimC1) * (S + S + ssimC2) := by ring
  rw [heq]
  exact div_self (ne_of_gt (mul_pos (by linarith) (by linarith)))

theorem gaussRaw_nonneg (size : ℕ) (sigma : ℝ) (wy wx : ℕ) :
    0 ≤ gaussRaw size sigma wy wx :=
  le_of_lt (Real.exp_pos _)

theorem gaussianKernel_nonneg (size : ℕ) (sigma : ℝ) (wy wx : ℕ) :
    0 ≤ gaussianKernel size sigma wy wx :=
  div_nonneg (gaussRaw_nonneg _ _ _ _)
    (Finset.sum_nonneg fun _ _ => gaussRaw_nonneg _ _ _ _)

/-- Each Gaussian window scores exactly 1 against itself. -/
theorem windowSSIMAt_self (l : List ℝ) (w y x : ℕ) :
    windowSSIMAt l l w y x = 1 := by
  rw [windowSSIMAt]
  try dsimp only
  exact ssim_ratio_self _ _ (Finset.sum_nonneg fun q _ =>
    mul_nonneg (mul_self_nonneg _) (gaussianKernel_nonneg _ _ _ _))

/-- The windowed mean scores 1 against itself (both the no-window
fallback and the genuine mean). -/
theorem windowedSSIM_self (l : List ℝ) (w h : ℕ) :
    windowedSSIM l l w h = 1 := by
  rw [windowedSSIM]
  try dsimp only
  split_ifs with hc
  · norm_num
  · rw [Finset.sum_congr rfl fun p _ => windowSSIMAt_self l w (p.1 + 4) (p.2 + 4)]
    rw [Finset.sum_const, nsmul_eq_mul, mul_one]
    exact div_self (Nat.cast_ne_zero.mpr hc)

/-- The small-image global fallback scores 1 against itself. -/
theorem pixelSSIM_self (a : NRGBA) : pixelSSIM a a = 1 := by
  rw [pixelSSIM]
  try dsimp only
  split_ifs with h
  · norm_num
  · exact ssim_ratio_self _ _
      (div_nonneg (Finset.sum_nonneg fun k _ => mul_self_nonneg _)
        (Nat.cast_nonneg _))

theorem ssimCore_self (a : NRGBA) (w h : ℕ) : ssimCore a a w h = 1 := by
  rw [ssimCore]
  split_ifs with hc
  · exact pixelSSIM_self a
  · exact windowedSSIM_self _ w h

theorem SSIM_self (B : NRGBA) : SSIM B B = 1 := by
  rw [SSIM]
  try dsimp only
  rw [if_neg (show ¬(B.w ≠ B.w ∨ B.h ≠ B.h) by simp)]
  exact ssimCore_self B B.w B.h

theorem SSIMFast_self (a : NRGBA) : SSIMFast a a = 1 := by
  rw [SSIMFast]
  try dsimp only
  split_ifs with hc
  · exact ssimCore_self _ _ _
  · exact ssimCore_self a a.w a.h

/-- The level loop of MS-SSIM accumulates 0 on a self-comparison: every
level sees identical images, so every log term vanishes. -/
theorem msLoop_self (ws : List ℝ) : ∀ a : NRGBA, msLoop a a ws = 0 := by
  induction ws with
  | nil => intro a; rw [msLoop]
  | cons wt rest ih =>
    intro a
    cases rest with
    | nil =>
      rw [msLoop, SSIMFast_self]
      rw [show max (1 : ℝ) 1e-10 = 1 from max_eq_left (by norm_num),
        Real.log_one, mul_zero, zero_add]
    | cons w2 r2 =>
      rw [msLoop, SSIMFast_self]
      rw [show max (1 : ℝ) 1e-10 = 1 from max_eq_left (by norm_num),
        Real.log_one, mul_zero, zero_add]
      try dsimp only
      split_ifs with hlt
      · rfl
      · exact ih _

theorem MSSSIM_self (B : NRGBA) : MSSSIM B B = 1 := by
  rw [MSSSIM]
  try dsimp only
  rw [if_neg (show ¬(B.w ≠ B.w ∨ B.h ≠ B.h) by simp)]
  rw [msLoop_self]
  exact Real.exp_zero

/-- Claim C9.  For every buffer with non-zero area, comparing the
buffer with itself yields SSIM at least 0.999 and MS-SSIM at least
0.99 (both are in fact exactly 1: the dimension check short-circuits
the resize, every window ratio collapses to 1, and every MS-SSIM level
contributes log 1 = 0). -/
theorem ssim_msssim_self (B : NRGBA) (_hB : B.w * B.h ≠ 0) :
    SSIM B B ≥ 0.999 ∧ MSSSIM B B ≥ 0.99 := by
  constructor
  · rw [SSIM_self]; norm_num
  · rw [MSSSIM_self]; norm_num

theorem ssim_msssim_self_witness :
    (⟨1, 1, 4, [0, 0, 0, 255]⟩ : NRGBA).w * (⟨1, 1, 4, [0, 0, 0, 255]⟩ : NRGBA).h ≠ 0 ∧
      (SSIM ⟨1, 1, 4, [0, 0, 0, 255]⟩ ⟨1, 1, 4, [0, 0, 0, 255]⟩ ≥ 0.999 ∧
        MSSSIM ⟨1, 1, 4, [0, 0, 0, 255]⟩ ⟨1, 1, 4, [0, 0, 0, 255]⟩ ≥ 0.99) :=
  ⟨by decide, ssim_msssim_self ⟨1, 1, 4, [0, 0, 0, 255]⟩ (by decide)⟩


/-! ### C5: format-selection rules -/

/-- Claim C5 (amended).  `recommendFormat` (the statistics-based
recommender) chooses PNG exactly under the claimed three ordered rules;
but the Auto resolver actually applied by the orchestrator is
`analyzeFormat`, which chooses PNG exactly when its own sample shows
transparency or STRICTLY fewer than 256 distinct colors, and consults
no edge density. -/
theorem format_resolution_rules :
    (∀ stats : ImageStats,
      recommendFormat stats = Format.PNG ↔
        (stats.hasAlpha = true ∨ stats.uniqueColors ≤ 256 ∨
          (stats.edgeDensity > 0.3 ∧ stats.uniqueColors < 1000))) ∧
    (∀ img : NRGBA,
      analyzeFormat img = Format.PNG ↔
        ((afScan img).1 = true ∨ (afScan img).2.length < 256)) := by
  constructor
  · intro stats
    rw [recommendFormat]
    split_ifs with h1 h2 h3
    · simp [h1]
    · simp [h1, h2]
    · simp [h1, h2, h3]
    · simp [h1, h2, h3]
  · intro img
    rw [analyzeFormat]
    split_ifs with h1 h2
    · simp [h1]
    · simp [h1, h2]
    · simp [h1, h2]

/-- Byte 0 of pixel `p` of the counterexample image. -/
theorem cFmtImg_b0 (p : ℕ) (hp : p < 256) : pixGet cFmtImg (p * 4) = p := by
  have h := flatMap_fixed_getD (fun i => [i, 0, 0, 255]) 4 (fun i => rfl) 256 p 0
    hp (by omega)
  simpa [pixGet, cFmtImg] using h

/-- Byte 1 of pixel `p` of the counterexample image. -/
theorem cFmtImg_b1 (p : ℕ) (hp : p < 256) : pixGet cFmtImg (p * 4 + 1) = 0 := by
  have h := flatMap_fixed_getD (fun i => [i, 0, 0, 255]) 4 (fun i => rfl) 256 p 1
    hp (by omega)
  simpa [pixGet, cFmtImg] using h

/-- Byte 2 of pixel `p` of the counterexample image. -/
theorem cFmtImg_b2 (p : ℕ) (hp : p < 256) : pixGet cFmtImg (p * 4 + 2) = 0 := by
  have h := flatMap_fixed_getD (fun i => [i, 0, 0, 255]) 4 (fun i => rfl) 256 p 2
    hp (by omega)
  simpa [pixGet, cFmtImg] using h

/-- Byte 3 (alpha) of pixel `p` of the counterexample image. -/
theorem cFmtImg_b3 (p : ℕ) (hp : p < 256) : pixGet cFmtImg (p * 4 + 3) = 255 := by
  have h := flatMap_fixed_getD (fun i => [i, 0, 0, 255]) 4 (fun i => rfl) 256 p 3
    hp (by omega)
  simpa [pixGet, cFmtImg] using h

/-- The sampling scan of the counterexample image, evaluated by
induction over the raster: every pixel is opaque and contributes the
fresh color key `p * 2^24 + 255`. -/
theorem afScan_cFmtImg :
    afScan cFmtImg =
      (false, (List.range 256).reverse.map (fun i => i * 16777216 + 255)) := by
  have hmain : ∀ k, k ≤ 256 →
      (List.range k).foldl (afStep cFmtImg 1) (false, []) =
        (false, (List.range k).reverse.map (fun i => i * 16777216 + 255)) := by
    intro k
    induction k with
    | zero => intro _; rfl
    | succ m ih =>
      intro hk
      rw [List.range_succ, List.foldl_append, ih (by omega), List.foldl_cons,
        List.foldl_nil]
      rw [afStep]
      rw [if_neg (by
        simp only [List.length_map, List.length_reverse, List.length_range]
        omega)]
      rw [if_neg (by simp [Nat.mod_one])]
      dsimp only
      have hoff : (m / cFmtImg.w) * cFmtImg.stride + (m % cFmtImg.w) * 4 =
          m * 4 := by
        show (m / 16) * 64 + (m % 16) * 4 = m * 4
        omega
      rw [hoff]
      rw [cFmtImg_b0 m (by omega), cFmtImg_b1 m (by omega),
        cFmtImg_b2 m (by omega), cFmtImg_b3 m (by omega)]
      have hkey : ((m * 256 + 0) * 256 + 0) * 256 + 255 = m * 16777216 + 255 := by
        ring
      rw [hkey]
      have hmem : (m * 16777216 + 255) ∉
          (List.range m).reverse.map (fun i => i * 16777216 + 255) := by
        simp only [List.mem_map, List.mem_reverse, List.mem_range]
        rintro ⟨i, hi, hieq⟩
        omega
      rw [if_neg hmem]
      simp [List.range_succ]
  have h1 : (if cFmtImg.w * cFmtImg.h > 10000
      then max 1 (cFmtImg.w * cFmtImg.h / 10000) else 1) = 1 := by
    norm_num [cFmtImg]
  rw [afScan, h1]
  rw [show cFmtImg.h * cFmtImg.w = 256 from rfl]
  exact hmain 256 le_rfl

/-- Claim C5 counterexample: on an opaque image with exactly 256
distinct sampled colors the claimed rule set (PNG already when the
sampled unique count is at most 256) demands PNG, but `analyzeFormat` —
the resolver `Auto` actually goes through — requires strictly fewer
than 256 colors and returns JPEG. -/
theorem analyzeFormat_256_colors_cex :
    (afScan cFmtImg).1 = false ∧ (afScan cFmtImg).2.length = 256 ∧
      analyzeFormat cFmtImg = Format.JPEG ∧
      ¬(analyzeFormat cFmtImg = Format.PNG ↔
        ((afScan cFmtImg).1 = true ∨ (afScan cFmtImg).2.length ≤ 256 ∨
          (computeEdgeDensity cFmtImg > 0.3 ∧
            (afScan cFmtImg).2.length < 1000))) := by
  have h2 : (afScan cFmtImg).2.length = 256 := by rw [afScan_cFmtImg]; simp
  have h3 : analyzeFormat cFmtImg = Format.JPEG := by
    rw [analyzeFormat, afScan_cFmtImg]
    simp
  refine ⟨by rw [afScan_cFmtImg], h2, h3, fun hiff => ?_⟩
  have hpng := hiff.mpr (Or.inr (Or.inl (by rw [h2])))
  rw [h3] at hpng
  exact Format.noConfusion hpng


/-! ### C8: cancellation of the target-size engine -/

theorem jqss_phaseB_decomp (encI : NRGBA → ℤ → Option (List ℕ))
    (dec : List ℕ → Option NRGBA) (ssimI : NRGBA → NRGBA → ℚ)
    (box lanczosO : NRGBA → ℕ → ℕ → NRGBA) (src : NRGBA) (target : ℤ) :
    jpegQualityScaleSearch encI dec ssimI box lanczosO src target =
      jqssPhaseB encI dec ssimI lanczosO src target
        (jqssRound encI dec ssimI box src target
          (jqssExplore encI dec ssimI box src target 10 0.05 1.0 none)) := rfl

/-- When none of the `n` token tests ahead trip, the ctx-aware
exploration loop computes exactly what the ctx-less loop computes. -/
theorem jqssExploreCtx_ok (ctx : ℕ → Bool) (encI : NRGBA → ℤ → Option (List ℕ))
    (dec : List ℕ → Option NRGBA) (ssimI : NRGBA → NRGBA → ℚ)
    (box : NRGBA → ℕ → ℕ → NRGBA) (src : NRGBA) (target : ℤ) :
    ∀ (n k : ℕ) (loS hiS : ℚ) (best : Option (ℚ × ℤ × ℕ)),
      (∀ j, j < n → ctx (k + j) = false) →
      jqssExploreCtx ctx encI dec ssimI box src target k n loS hiS best =
        .ok (jqssExplore encI dec ssimI box src target n loS hiS best) := by
  intro n
  induction n with
  | zero =>
    intro k loS hiS best h
    rw [jqssExploreCtx.eq_def, jqssExplore.eq_def]
    simp
  | succ m ih =>
    intro k loS hiS best h
    have h0 : ¬ (ctx k = true) := by
      have := h 0 (by omega)
      simp only [Nat.add_zero] at this
      simp [this]
    have hsh : ∀ j, j < m → ctx (k + 1 + j) = false := fun j hj => by
      have := h (j + 1) (by omega)
      rwa [show k + (j + 1) = k + 1 + j from by omega] at this
    rw [jqssExploreCtx.eq_def, jqssExplore.eq_def]
    rw [dif_neg (Nat.succ_ne_zero m), dif_neg (Nat.succ_ne_zero m),
      if_neg h0]
    simp only [Nat.add_sub_cancel]
    try dsimp only
    split_ifs with hw
    · exact ih (k + 1) _ _ _ hsh
    · set scaled := box src ((⌊(src.w : ℚ) * ((loS + hiS) / 2)⌋).toNat)
        ((⌊(src.h : ℚ) * ((loS + hiS) / 2)⌋).toNat) with hscaled
      cases jpegQualitySearchOpt (encI scaled) dec (ssimI scaled) scaled
          target true with
      | none => exact ih (k + 1) _ _ _ hsh
      | some r =>
        dsimp only
        split_ifs with hacc
        · exact ih (k + 1) _ _ _ hsh
        · exact ih (k + 1) _ _ _ hsh

/-- When the `i`-th token test ahead is the first to trip and lies
within the `n` remaining iterations, the ctx-aware exploration loop
returns the cancellation error. -/
theorem jqssExploreCtx_trips (ctx : ℕ → Bool)
    (encI : NRGBA → ℤ → Option (List ℕ)) (dec : List ℕ → Option NRGBA)
    (ssimI : NRGBA → NRGBA → ℚ) (box : NRGBA → ℕ → ℕ → NRGBA) (src : NRGBA)
    (target : ℤ) :
    ∀ (i n k : ℕ) (loS hiS : ℚ) (best : Option (ℚ × ℤ × ℕ)),
      i < n → (∀ j, j < i → ctx (k + j) = false) → ctx (k + i) = true →
      jqssExploreCtx ctx encI dec ssimI box src target k n loS hiS best =
        .error () := by
  intro i
  induction i with
  | zero =>
    intro n k loS hiS best hin hb ht
    rw [jqssExploreCtx.eq_def, dif_neg (by omega : ¬ n = 0)]
    simp only [Nat.add_zero] at ht
    rw [if_pos ht]
  | succ m ih =>
    intro n k loS hiS best hin hb ht
    have h0 : ¬ (ctx k = true) := by
      have := hb 0 (by omega)
      simp only [Nat.add_zero] at this
      simp [this]
    have hb2 : ∀ j, j < m → ctx (k + 1 + j) = false := fun j hj => by
      have := hb (j + 1) (by omega)
      rwa [show k + (j + 1) = k + 1 + j from by omega] at this
    have ht2 : ctx (k + 1 + m) = true := by
      rwa [show k + (m + 1) = k + 1 + m from by omega] at ht
    rw [jqssExploreCtx.eq_def, dif_neg (by omega : ¬ n = 0), if_neg h0]
    have hrec : ∀ (loS hiS : ℚ) (best : Option (ℚ × ℤ × ℕ)),
        jqssExploreCtx ctx encI dec ssimI box src target (k + 1) (n - 1)
          loS hiS best = .error () :=
      fun loS hiS best => ih (n - 1) (k + 1) loS hiS best (by omega) hb2 ht2
    dsimp only
    simp only [hrec]
    split
    · rfl
    · split
      · rfl
      · split <;> rfl

/-- Claim C8 (spec-modelled).  The ctx-aware target-size engine tests
the token at every strategy boundary and at every exploration-loop
iteration: when no test trips it returns exactly the ctx-less engine of
the targetsize.go snapshot, and when the first tripped test is any of
the fourteen checkpoints of the JPEG-capable path it returns the
cancellation error and no candidate. -/
theorem targetsize_cancellation (ctx : ℕ → Bool)
    (encI : NRGBA → ℤ → Option (List ℕ)) (dec : List ℕ → Option NRGBA)
    (ssimI : NRGBA → NRGBA → ℚ) (box lanczosO : NRGBA → ℕ → ℕ → NRGBA)
    (strat2 strat4 : Option sizeResult) (fallback : sizeResult) (src : NRGBA)
    (target : ℤ) (tryQuant : Bool) :
    ((∀ k, ctx k = false) →
      hitTargetSizeCtx ctx encI dec ssimI box lanczosO strat2 strat4 fallback
          src target true tryQuant =
        .ok (hitTargetSizeNoCancel encI dec ssimI box lanczosO strat2 strat4
          fallback src target true tryQuant)) ∧
    (∀ k0, k0 < 14 → ctx k0 = true → (∀ j, j < k0 → ctx j = false) →
      hitTargetSizeCtx ctx encI dec ssimI box lanczosO strat2 strat4 fallback
          src target true tryQuant = .error ()) := by
  constructor
  · intro h
    rw [hitTargetSizeCtx, hitTargetSizeNoCancel]
    simp only [h, Bool.false_eq_true, if_false, eq_self_iff_true, if_true]
    rw [jqssExploreCtx_ok ctx encI dec ssimI box src target 10 3 0.05 1.0 none
      (fun j _ => h (3 + j))]
    try dsimp only
    rw [jqss_phaseB_decomp]
  · intro k0 hk0 ht hb
    rw [hitTargetSizeCtx]
    rcases (show k0 = 0 ∨ k0 = 1 ∨ k0 = 2 ∨ (3 ≤ k0 ∧ k0 ≤ 12) ∨ k0 = 13
        from by omega) with h | h | h | ⟨h3, h12⟩ | h
    · subst h; rw [if_pos ht]
    · subst h
      rw [if_neg (by simp [hb 0 (by omega)]), if_pos ht]
    · subst h
      rw [if_neg (by simp [hb 0 (by omega)]),
        if_neg (by simp [hb 1 (by omega)]), if_pos ht]
    · rw [if_neg (by simp [hb 0 (by omega)]),
        if_neg (by simp [hb 1 (by omega)]),
        if_neg (by simp [hb 2 (by omega)]), if_pos rfl]
      rw [jqssExploreCtx_trips ctx encI dec ssimI box src target (k0 - 3) 10 3
        0.05 1.0 none (by omega)
        (fun j hj => hb (3 + j) (by omega))
        (by rwa [show 3 + (k0 - 3) = k0 from by omega])]
    · subst h
      rw [if_neg (by simp [hb 0 (by omega)]),
        if_neg (by simp [hb 1 (by omega)]),
        if_neg (by simp [hb 2 (by omega)]), if_pos rfl]
      rw [jqssExploreCtx_ok ctx encI dec ssimI box src target 10 3 0.05 1.0
        none (fun j hj => hb (3 + j) (by omega))]
      try dsimp only
      rw [if_pos ht]

theorem targetsize_cancellation_witness :
    (∀ k, wCtx k = false) ∧
      hitTargetSizeCtx wCtx wEncI cexDec wSsimI wBox wBox none none wFinal
          wSrc 10 true false =
        .ok (hitTargetSizeNoCancel wEncI cexDec wSsimI wBox wBox none none
          wFinal wSrc 10 true false) :=
  ⟨fun _ => rfl,
    (targetsize_cancellation wCtx wEncI cexDec wSsimI wBox wBox none none
      wFinal wSrc 10 false).1 (fun _ => rfl)⟩

end Fennec
